import Mathlib

/-!
Verification of the ratscramble rules engine and referee ruling interpreter.

This file gives a shallow embedding, in Lean 4, of the Python sources
`src/game/engine.py`, `src/game/models.py`, `src/game/cards.py` and the
ruling-interpretation helpers of `src/game/orchestrator.py`, together with
theorems settling the behavioural claims about them.

Modelling conventions:
* Python `dict`s whose key set is always the four characters (or seasons)
  are modelled as total functions; genuinely partial dicts
  (`token_assignments`, `votes`, `contracts`) are modelled as insertion
  ordered association lists with Python `dict` update semantics.
* Python `int` is `Int` (arbitrary precision, signed); counts that are
  provably non-negative still use `Int` so that subtraction is faithful.
* Operations that can raise in Python (`IndexError` in `cast_vote`,
  `RuntimeError` in `start_round`, `KeyError`/`TypeError` in
  `resolve_round`) return `Option`, with `none` for the raising paths.
* Calls into `random.Random` (`choice`, `shuffle`) are modelled by explicit
  parameters: a `choice` from a non-empty list is selected by an arbitrary
  natural index taken modulo the list length, and a `shuffle` result is an
  arbitrary permutation of the card catalogue, constrained by a
  `List.Perm` hypothesis where it matters.
-/

namespace RatScramble

/-! ## Data model: `src/game/models.py` -/

inductive Character where
  | carmichael
  | quincy
  | medici
  | dambrosio
deriving DecidableEq, Repr

/-- The `str` value of each `Character` enum member. -/
def Character.value : Character → String
  | .carmichael => "Carmichael"
  | .quincy => "Quincy"
  | .medici => "Medici"
  | .dambrosio => "D\x27Ambrosio"

inductive Season where
  | spring
  | summer
  | autumn
  | winter
deriving DecidableEq, Repr

inductive Phase where
  | deal
  | negotiation
  | voting
  | resolution
  | complete
deriving DecidableEq, Repr

inductive OutcomeType where
  | majority
  | consensus
deriving DecidableEq, Repr

inductive EffectKind where
  | toggle
  | event
  | null
deriving DecidableEq, Repr

inductive ContractStatus where
  | active
  | void
  | fulfilled
  | breached
deriving DecidableEq, Repr

structure ProposalCard where
  name : String
  majority : List Season
  consensus : List Season
deriving DecidableEq, Repr

structure EffectCard where
  name : String
  kind : EffectKind
  description : String
deriving DecidableEq, Repr

structure Contract where
  contract_id : String
  text : String
  parties : List Character
  created_round : Nat
  status : ContractStatus
  notes : String
deriving DecidableEq, Repr

structure RoundResult where
  passed_proposal_index : Option Int
  outcome_type : Option OutcomeType
  winning_votes : Nat
  applied_effect : Option String
deriving DecidableEq, Repr

/-- `CHARACTER_ORDER` from `models.py`: the canonical iteration order, which is
also the insertion order of every per-character Python dict in the engine. -/
def CHARACTER_ORDER : List Character :=
  [Character.carmichael, Character.quincy, Character.medici, Character.dambrosio]

/-! ## Python `dict` as an insertion-ordered association list -/

/-- `d[k]` as an `Option` (i.e. `dict.get`). -/
def pyGet {α β : Type} [DecidableEq α] (d : List (α × β)) (k : α) : Option β :=
  (d.find? (fun e => e.1 = k)).map (fun e => e.2)

/-- `k in d`. -/
def pyContains {α β : Type} [DecidableEq α] (d : List (α × β)) (k : α) : Bool :=
  (pyGet d k).isSome

/-- `d[k] = v`: replaces in place if the key is present, appends otherwise. -/
def pySet {α β : Type} [DecidableEq α] (d : List (α × β)) (k : α) (v : β) : List (α × β) :=
  if pyContains d k then d.map (fun e => if e.1 = k then (k, v) else e)
  else d ++ [(k, v)]

/-- `d.values()` in insertion order. -/
def pyValues {α β : Type} (d : List (α × β)) : List β :=
  d.map (fun e => e.2)

/-- Python `set.add` on a duplicate-free list model of a set. -/
def insertSet {α : Type} [DecidableEq α] (x : α) (l : List α) : List α :=
  if l.contains x then l else l ++ [x]

/-! ## Python string helpers (`str.strip`, `str.split`, `str.splitlines`) -/

/-- The whitespace class of Python `str.strip()` / `str.split()` (ASCII part). -/
def pyIsSpace (c : Char) : Bool :=
  c = ' ' || c = '\t' || c = '\n' || c = '\r' || c = '\x0b' || c = '\x0c'

/-- Python `str.strip()`. -/
def pyStrip (s : String) : String :=
  String.mk (((s.data.dropWhile pyIsSpace).reverse.dropWhile pyIsSpace).reverse)

/-- Accumulator-based splitter for Python `str.split()` with no argument:
splits on runs of whitespace, producing no empty words. -/
def wordsAux : List Char → List Char → List String
  | [], cur => if cur.isEmpty then [] else [String.mk cur.reverse]
  | c :: cs, cur =>
    if pyIsSpace c then
      if cur.isEmpty then wordsAux cs [] else String.mk cur.reverse :: wordsAux cs []
    else wordsAux cs (c :: cur)

/-- Python `text.split()` (no separator argument). -/
def pyWords (s : String) : List String :=
  wordsAux s.data []

/-- Python `" ".join(words)`. -/
def joinWords (ws : List String) : String :=
  String.intercalate " " ws

/-! ## Game state (`GameState` of `models.py` plus the engine's config knobs) -/

structure GState where
  max_rounds : Nat
  round_number : Nat
  phase : Phase
  bells : Season → Nat
  token_assignments : List (Nat × Character)
  votes : List (Character × Int)
  vote_changes : Character → Nat
  voting_cursor : Nat
  word_counts : Character → Nat
  muted_players : List Character
  holdings : Character → Character → Int
  contracts : List (String × Contract)
  active_toggles : List String
  proposal_deck : List ProposalCard
  effect_deck : List EffectCard
  current_proposals : Option (ProposalCard × ProposalCard)
  current_effects : Option ((EffectCard × EffectCard) × (EffectCard × EffectCard))
  transcript : List String

/-- The canonical 5-per-owner diagonal ledger built both by `_new_state` and by
the "Jubilee" effect. -/
def canonicalHoldings : Character → Character → Int :=
  fun holder owner => if holder = owner then 5 else 0

/-- `RulesEngine._new_state`, parameterised by the two shuffled decks (the
wall-clock `metadata` timestamps of the original are not modelled). -/
def init_state (maxRounds : Nat) (pd : List ProposalCard) (ed : List EffectCard) : GState where
  max_rounds := maxRounds
  round_number := 1
  phase := Phase.deal
  bells := fun _ => 0
  token_assignments := []
  votes := []
  vote_changes := fun _ => 0
  voting_cursor := 0
  word_counts := fun _ => 0
  muted_players := []
  holdings := canonicalHoldings
  contracts := []
  active_toggles := []
  proposal_deck := pd
  effect_deck := ed
  current_proposals := none
  current_effects := none
  transcript := []

/-! ## Engine operations (`src/game/engine.py`) -/

/-- `RulesEngine.record_utterance`.  `cap` is `config.negotiation_word_cap`.
Returns `((kept_text, is_muted), new_state)`. -/
def record_utterance (cap : Nat) (s : GState) (player : Character) (text : String)
    (binding_allowed : Bool) : (String × Bool) × GState :=
  let t := pyStrip text
  if t = "" then (("", s.muted_players.contains player), s)
  else if s.phase ≠ Phase.negotiation then
    ((t, s.muted_players.contains player),
      { s with transcript := s.transcript ++ [player.value ++ ": " ++ t] })
  else
    let current := s.word_counts player
    let words := pyWords t
    let remaining : Int := (cap : Int) - (current : Int)
    if remaining ≤ 0 then
      (("", true), { s with muted_players := insertSet player s.muted_players })
    else
      let kept_words := words.take remaining.toNat
      let kept_text := joinWords kept_words
      let newCount := current + kept_words.length
      let muted' :=
        if cap ≤ newCount then insertSet player s.muted_players else s.muted_players
      let tag := if binding_allowed then "[binding]" else "[non-binding]"
      ((kept_text, muted'.contains player),
        { s with
            word_counts := Function.update s.word_counts player newCount
            muted_players := muted'
            transcript := s.transcript ++ [player.value ++ " " ++ tag ++ ": " ++ kept_text] })

/-- `RulesEngine.can_take_token`. -/
def can_take_token (s : GState) (player : Character) (token : Nat) : Bool :=
  if s.phase ≠ Phase.negotiation then false
  else if ¬ (token = 1 ∨ token = 2 ∨ token = 3 ∨ token = 4) then false
  else if pyContains s.token_assignments token then false
  else if (pyValues s.token_assignments).contains player then false
  else if token = 3 then true
  else pyContains s.token_assignments 3

/-- `RulesEngine.take_token`: records the assignment on success, no-op
returning `false` otherwise. -/
def take_token (s : GState) (player : Character) (token : Nat) : Bool × GState :=
  if can_take_token s player token then
    (true,
      { s with
          token_assignments := pySet s.token_assignments token player
          transcript := s.transcript ++ [player.value ++ " took vote token " ++ toString token] })
  else (false, s)

/-- `RulesEngine.all_tokens_taken`. -/
def all_tokens_taken (s : GState) : Bool :=
  s.token_assignments.length = 4

/-- `RulesEngine.enter_voting_phase`. -/
def enter_voting_phase (s : GState) : GState :=
  { s with phase := Phase.voting, transcript := s.transcript ++ ["Voting phase begins"] }

/-- `RulesEngine.cast_vote`.  The Python code indexes `[1, 2, 3, 4]` with the
voting cursor, so a call with `voting_cursor ≥ 4` (after four successful
votes) raises `IndexError`; that raising path is `none`. -/
def cast_vote (s : GState) (player : Character) (proposal_index : Int) :
    Option (Bool × GState) :=
  if s.phase ≠ Phase.voting then some (false, s)
  else if ¬ (proposal_index = 0 ∨ proposal_index = 1) then some (false, s)
  else
    match [1, 2, 3, 4].get? s.voting_cursor with
    | none => none
    | some expected_token =>
      if pyGet s.token_assignments expected_token ≠ some player then some (false, s)
      else
        some (true,
          { s with
              votes := pySet s.votes player proposal_index
              voting_cursor := s.voting_cursor + 1 })

/-- `RulesEngine.force_vote_by_referee`: rewrites an already-cast vote only. -/
def force_vote_by_referee (s : GState) (player : Character) (proposal_index : Int) :
    Bool × GState :=
  if s.phase ≠ Phase.voting then (false, s)
  else if ¬ (proposal_index = 0 ∨ proposal_index = 1) then (false, s)
  else if ¬ pyContains s.votes player then (false, s)
  else (true, { s with votes := pySet s.votes player proposal_index })

/-- `RulesEngine.can_change_vote`. -/
def can_change_vote (s : GState) (target : Character) : Bool :=
  decide (s.phase = Phase.voting) && pyContains s.votes target
    && decide (s.vote_changes target < 2)

/-- The two sequential ledger mutations
`holdings[src][owner] -= amt; holdings[dst][owner] += amt`
shared by both vote-change mechanisms and both random-exchange effects. -/
def transfer_units (g : Character → Character → Int) (src dst owner : Character)
    (amt : Int) : Character → Character → Int :=
  let g1 := Function.update g src (Function.update (g src) owner (g src owner - amt))
  Function.update g1 dst (Function.update (g1 dst) owner (g1 dst owner + amt))

/-- `RulesEngine.change_vote_using_target_token`: the actor spends one
target-owned promise token from their own cell into the target's own cell,
then overwrites the target's vote. -/
def change_vote_using_target_token (s : GState) (actor target : Character)
    (new_proposal_index : Int) : Bool × GState :=
  if ¬ can_change_vote s target then (false, s)
  else if s.holdings actor target ≤ 0 then (false, s)
  else
    (true,
      { s with
          holdings := transfer_units s.holdings actor target target 1
          votes := pySet s.votes target new_proposal_index
          vote_changes := Function.update s.vote_changes target (s.vote_changes target + 1)
          transcript := s.transcript ++
            [actor.value ++ " changed " ++ target.value ++ "\x27s vote using a "
              ++ target.value ++ " token"] })

/-- `RulesEngine.force_vote_change_with_three_tokens`: the actor spends three
own-owned promise tokens into the target's holding cell, then overwrites the
target's vote. -/
def force_vote_change_with_three_tokens (s : GState) (actor target : Character)
    (new_proposal_index : Int) : Bool × GState :=
  if ¬ can_change_vote s target then (false, s)
  else if s.holdings actor actor < 3 then (false, s)
  else
    (true,
      { s with
          holdings := transfer_units s.holdings actor target actor 3
          votes := pySet s.votes target new_proposal_index
          vote_changes := Function.update s.vote_changes target (s.vote_changes target + 1)
          transcript := s.transcript ++
            [actor.value ++ " forced " ++ target.value ++ "\x27s vote change by giving 3 own tokens"] })

/-- `RulesEngine.add_or_update_contract`. -/
def add_or_update_contract (s : GState) (c : Contract) : GState :=
  { s with contracts := pySet s.contracts c.contract_id c }

/-- `RulesEngine.void_contract`. -/
def void_contract (s : GState) (contract_id : String) (notes : String) : GState :=
  match pyGet s.contracts contract_id with
  | none => s
  | some c =>
    let c' := { c with status := ContractStatus.void, notes := notes }
    { s with contracts := pySet s.contracts contract_id c' }

/-! ## Card catalogues (`src/game/cards.py`) -/

/-- `_seq` season-code shorthand from `cards.py`. -/
def seasonOfCode (c : Char) : Season :=
  if c = 'P' then Season.spring
  else if c = 'S' then Season.summer
  else if c = 'A' then Season.autumn
  else Season.winter

def seq (code : String) : List Season :=
  code.data.map seasonOfCode

def PROPOSAL_CARDS : List ProposalCard :=
  [⟨"Winter Solstice", seq "WWP", seq "WWWW"⟩,
   ⟨"Winter Awake", seq "WWP", seq "WPSS"⟩,
   ⟨"Winter in Chorus", seq "WPS", seq "WWWA"⟩,
   ⟨"Winter All-Aglow", seq "WWW", seq "PPAA"⟩,
   ⟨"Winter in Harmony", seq "WPS", seq "WWPP"⟩,
   ⟨"Spring Equinox", seq "PPS", seq "PPPP"⟩,
   ⟨"Spring-At-The-Door", seq "PPS", seq "PSWW"⟩,
   ⟨"Spring In Quiet", seq "PPP", seq "SSWW"⟩,
   ⟨"Spring Overflowing", seq "PSA", seq "PPSS"⟩,
   ⟨"Spring In Bloom", seq "PSA", seq "PPPW"⟩,
   ⟨"Autumn Equinox", seq "AAW", seq "AAAA"⟩,
   ⟨"Autumn In Flight", seq "AAA", seq "WWPP"⟩,
   ⟨"Autumn In Memory", seq "AWP", seq "AAWW"⟩,
   ⟨"Autumn In Mourning", seq "AAW", seq "AWPP"⟩,
   ⟨"Autumn In Vain", seq "AWP", seq "AAAW"⟩,
   ⟨"Summer Solstice", seq "SSA", seq "SSSS"⟩,
   ⟨"Summer Singing", seq "SAW", seq "SSAA"⟩,
   ⟨"Summer Bursting", seq "SSS", seq "AAPP"⟩,
   ⟨"Summer Waking", seq "SAW", seq "SSSP"⟩,
   ⟨"Summer in Glory", seq "SSA", seq "SAWW"⟩]

def EFFECT_CARDS : List EffectCard :=
  [⟨"Clairvoyant", EffectKind.toggle, "Proposal deck is face-up and visible to all players."⟩,
   ⟨"Shotgun", EffectKind.toggle, "Token 1 player can break ties."⟩,
   ⟨"Flea Market", EffectKind.toggle, "Players can trade other players\x27 promise tokens."⟩,
   ⟨"Highway Robbery", EffectKind.event, "Each player takes 1 promise token from another player."⟩,
   ⟨"Jubilee", EffectKind.event, "All promise tokens return to their owners."⟩,
   ⟨"Secret Santa", EffectKind.event, "Each player gives 1 promise token to another player."⟩,
   ⟨"Transformation", EffectKind.event, "Players may transform promise tokens into tokens from different players."⟩,
   ⟨"Null 1", EffectKind.null, "No effect."⟩,
   ⟨"Null 2", EffectKind.null, "No effect."⟩,
   ⟨"Null 3", EffectKind.null, "No effect."⟩,
   ⟨"Null 4", EffectKind.null, "No effect."⟩,
   ⟨"Null 5", EffectKind.null, "No effect."⟩,
   ⟨"Null 6", EffectKind.null, "No effect."⟩,
   ⟨"Null 7", EffectKind.null, "No effect."⟩,
   ⟨"Null 8", EffectKind.null, "No effect."⟩]

/-! ## Effect handlers -/

/-- `rng.choice(l)` for a non-empty `l`, modelled by an arbitrary index taken
modulo the length (so the chosen element is always a member of `l`). -/
def choosePick (l : List Character) (k : Nat) : Character :=
  l.getD (k % l.length) Character.carmichael

/-- `sum(holdings[holder].values())`. -/
def rowTotal (g : Character → Character → Int) (holder : Character) : Int :=
  (CHARACTER_ORDER.map (g holder)).sum

/-- One iteration of the `_apply_highway_robbery` loop: `thief` steals one
held token unit from a randomly chosen other player who holds any. -/
def hr_step (g : Character → Character → Int) (thief : Character) (pick : Nat × Nat) :
    Character → Character → Int :=
  let possible := CHARACTER_ORDER.filter (fun t => decide (t ≠ thief) && decide (0 < rowTotal g t))
  if possible.isEmpty then g
  else
    let target := choosePick possible pick.1
    let available := CHARACTER_ORDER.filter (fun o => decide (0 < g target o))
    if available.isEmpty then g
    else
      let owner := choosePick available pick.2
      transfer_units g target thief owner 1

/-- `RulesEngine._apply_highway_robbery`, with one `(target, owner)` random
pick per thief. -/
def apply_highway_robbery (picks : Character → Nat × Nat) (s : GState) : GState :=
  { s with holdings := CHARACTER_ORDER.foldl (fun g thief => hr_step g thief (picks thief)) s.holdings }

/-- `RulesEngine._apply_jubilee`: ledger hard reset. -/
def apply_jubilee (s : GState) : GState :=
  { s with holdings := canonicalHoldings }

/-- One iteration of the `_apply_secret_santa` loop. -/
def ss_step (g : Character → Character → Int) (giver : Character) (pick : Nat) :
    Character → Character → Int :=
  if g giver giver ≤ 0 then g
  else
    let recipients := CHARACTER_ORDER.filter (fun p => decide (p ≠ giver))
    let recipient := choosePick recipients pick
    transfer_units g giver recipient giver 1

/-- `RulesEngine._apply_secret_santa`, with one random recipient pick per giver. -/
def apply_secret_santa (picks : Character → Nat) (s : GState) : GState :=
  { s with holdings := CHARACTER_ORDER.foldl (fun g giver => ss_step g giver (picks giver)) s.holdings }

/-- `RulesEngine._apply_effect`. -/
def apply_effect (effect : EffectCard) (hrPicks : Character → Nat × Nat)
    (ssPicks : Character → Nat) (s : GState) : GState :=
  if effect.kind = EffectKind.null then s
  else if effect.kind = EffectKind.toggle then
    let toggles' :=
      if s.active_toggles.contains effect.name then s.active_toggles.erase effect.name
      else insertSet effect.name s.active_toggles
    { s with active_toggles := toggles',
             transcript := s.transcript ++ ["Toggle effect updated: " ++ effect.name] }
  else if effect.name = "Highway Robbery" then apply_highway_robbery hrPicks s
  else if effect.name = "Jubilee" then apply_jubilee s
  else if effect.name = "Secret Santa" then apply_secret_santa ssPicks s
  else if effect.name = "Transformation" then
    { s with transcript := s.transcript ++ ["Transformation triggered (no-op in v1 automation)"] }
  else s

/-! ## Round resolution -/

/-- Number of votes for proposal `idx`. -/
def countVotes (votes : List (Character × Int)) (idx : Int) : Nat :=
  ((pyValues votes).filter (fun v => v = idx)).length

/-- The tie/majority selection of `resolve_round`: `some (passed, outcome,
winning_votes)` when a proposal passes, `none` when a tie passes nothing. -/
def resolveSelect (s : GState) : Option (Int × OutcomeType × Nat) :=
  let c0 := countVotes s.votes 0
  let c1 := countVotes s.votes 1
  let winning := max c0 c1
  if c0 = c1 then
    if s.active_toggles.contains "Shotgun" then
      match pyGet s.token_assignments 1 with
      | some p1 =>
        match pyGet s.votes p1 with
        | some v => some (v, OutcomeType.majority, 3)
        | none => none
      | none => none
    else none
  else
    some ((if c1 < c0 then 0 else 1),
      (if winning = 4 then OutcomeType.consensus else OutcomeType.majority), winning)

/-- Advance `round_number` and enter `COMPLETE` past `max_rounds` (the common
tail of `resolve_round`), including the unconditional effect-deck reshuffle. -/
def resolveAdvance (newDeck : List EffectCard) (s : GState) : GState :=
  let s1 := { s with effect_deck := newDeck, round_number := s.round_number + 1 }
  if s1.max_rounds < s1.round_number then { s1 with phase := Phase.complete } else s1

/-- `RulesEngine.resolve_round`.  `newDeck` is the freshly reshuffled effect
deck.  `none` models the raising paths: a vote value outside `{0, 1}`
(`KeyError` in the tally), and a passing proposal with `current_proposals` /
`current_effects` unpopulated (`TypeError` / `KeyError`). -/
def resolve_round (hrPicks : Character → Nat × Nat) (ssPicks : Character → Nat)
    (newDeck : List EffectCard) (s : GState) : Option (RoundResult × GState) :=
  let s0 := { s with phase := Phase.resolution }
  if (pyValues s0.votes).any (fun v => decide (¬ (v = 0 ∨ v = 1))) then none
  else
    let winning := max (countVotes s0.votes 0) (countVotes s0.votes 1)
    match resolveSelect s0 with
    | none =>
      some (⟨none, none, winning, none⟩, resolveAdvance newDeck s0)
    | some (p, oc, w) =>
      match s0.current_proposals with
      | none => none
      | some props =>
        let proposal := if p = 0 then props.1 else props.2
        let seasons := if oc = OutcomeType.consensus then proposal.consensus else proposal.majority
        let s1 := { s0 with bells := seasons.foldl (fun b se => Function.update b se (b se + 1)) s0.bells }
        match s1.current_effects with
        | none => none
        | some effs =>
          let effect :=
            if p = 0 then (if oc = OutcomeType.consensus then effs.1.2 else effs.1.1)
            else (if oc = OutcomeType.consensus then effs.2.2 else effs.2.1)
          let s2 := apply_effect effect hrPicks ssPicks s1
          some (⟨some p, some oc, w, some effect.name⟩, resolveAdvance newDeck s2)

/-! ## Round start -/

def dummyProposal : ProposalCard := ⟨"", [], []⟩

def dummyEffect : EffectCard := ⟨"", EffectKind.null, ""⟩

/-- `RulesEngine._draw_effect`: pop from the end, refilling from a freshly
reshuffled catalogue (`freshDeck`) when the deck runs dry. -/
def draw_effect (freshDeck : List EffectCard) (deck : List EffectCard) :
    EffectCard × List EffectCard :=
  let d := if deck.isEmpty then freshDeck else deck
  (d.getLastD dummyEffect, d.dropLast)

/-- `RulesEngine.start_round`.  `none` models the `RuntimeError` raised when
fewer than two proposal cards remain. -/
def start_round (freshDeck : List EffectCard) (s : GState) : Option GState :=
  if s.max_rounds < s.round_number then some { s with phase := Phase.complete }
  else if s.proposal_deck.length < 2 then none
  else
    let p1 := s.proposal_deck.getLastD dummyProposal
    let rest1 := s.proposal_deck.dropLast
    let p2 := rest1.getLastD dummyProposal
    let rest2 := rest1.dropLast
    let (e0, d0) := draw_effect freshDeck s.effect_deck
    let (e1, d1) := draw_effect freshDeck d0
    let (e2, d2) := draw_effect freshDeck d1
    let (e3, d3) := draw_effect freshDeck d2
    some
      { s with
          phase := Phase.negotiation
          proposal_deck := rest2
          effect_deck := d3
          current_proposals := some (p1, p2)
          current_effects := some ((e0, e1), (e2, e3))
          token_assignments := []
          votes := []
          voting_cursor := 0
          vote_changes := fun _ => 0
          word_counts := fun _ => 0
          muted_players := [] }

/-! ## Deadlock fallback -/

/-- The loop body of `force_remaining_tokens_seeded`: walk the remaining
tokens, popping the next unassigned player for each and assigning when legal. -/
def frtsLoop (tokens : List Nat) (players : List Character) (s : GState)
    (acc : List (Character × Nat)) : List (Character × Nat) × GState :=
  match tokens, players with
  | [], _ => (acc, s)
  | _ :: _, [] => (acc, s)
  | t :: ts, p :: ps =>
    if can_take_token s p t then frtsLoop ts ps (take_token s p t).2 (acc ++ [(p, t)])
    else frtsLoop ts ps s acc

/-- `RulesEngine.force_remaining_tokens_seeded`: deterministic deadlock
fallback walking unassigned tokens in priority order `[3, 4, 2, 1]` against
the unassigned players in canonical character order. -/
def force_remaining_tokens_seeded (s : GState) : List (Character × Nat) × GState :=
  let taken := pyValues s.token_assignments
  let remaining_players := CHARACTER_ORDER.filter (fun p => ¬ taken.contains p)
  let remaining_tokens := [3, 4, 2, 1].filter (fun t => ¬ pyContains s.token_assignments t)
  frtsLoop remaining_tokens remaining_players s []

/-! ## Reachability: any sequence of engine operations -/

/-- One engine operation, with all random choices quantified as parameters.
Raising calls (`none` results) contribute no step: the exception aborts the
run.  (On those paths the ledger is never touched — `cast_vote` and
`start_round` raise before any mutation, and the raising paths of
`resolve_round` mutate at most `phase` and `bells`.) -/
inductive EngineStep : GState → GState → Prop where
  | startRound (fresh : List EffectCard) (s s' : GState)
      (hperm : fresh.Perm EFFECT_CARDS) (h : start_round fresh s = some s') :
      EngineStep s s'
  | record (cap : Nat) (s : GState) (p : Character) (text : String) (b : Bool) :
      EngineStep s (record_utterance cap s p text b).2
  | take (s : GState) (p : Character) (t : Nat) : EngineStep s (take_token s p t).2
  | enterVoting (s : GState) : EngineStep s (enter_voting_phase s)
  | castVote (s : GState) (p : Character) (i : Int) (b : Bool) (s' : GState)
      (h : cast_vote s p i = some (b, s')) : EngineStep s s'
  | forceVote (s : GState) (p : Character) (i : Int) :
      EngineStep s (force_vote_by_referee s p i).2
  | changeVote (s : GState) (a t : Character) (i : Int) :
      EngineStep s (change_vote_using_target_token s a t i).2
  | forceChange (s : GState) (a t : Character) (i : Int) :
      EngineStep s (force_vote_change_with_three_tokens s a t i).2
  | resolve (hr : Character → Nat × Nat) (ss : Character → Nat)
      (newDeck : List EffectCard) (s : GState) (r : RoundResult) (s' : GState)
      (hperm : newDeck.Perm EFFECT_CARDS) (h : resolve_round hr ss newDeck s = some (r, s')) :
      EngineStep s s'
  | frts (s : GState) : EngineStep s (force_remaining_tokens_seeded s).2
  | addContract (s : GState) (c : Contract) : EngineStep s (add_or_update_contract s c)
  | voidContract (s : GState) (cid notes : String) : EngineStep s (void_contract s cid notes)

/-- States reachable from a fresh engine (`RulesEngine.__init__`) by any
sequence of engine operations. -/
inductive Reach : GState → Prop where
  | init (maxRounds : Nat) (pd : List ProposalCard) (ed : List EffectCard)
      (hp : pd.Perm PROPOSAL_CARDS) (he : ed.Perm EFFECT_CARDS) :
      Reach (init_state maxRounds pd ed)
  | step (s s' : GState) (hs : Reach s) (h : EngineStep s s') : Reach s'

/-! ## Ledger sums and their preservation -/

/-- Sum of one owner's column of the promise-token ledger: how many
`o`-owned units exist across all holders. -/
def colSum (g : Character → Character → Int) (o : Character) : Int :=
  (CHARACTER_ORDER.map (fun h => g h o)).sum

/-- Sum of all values in the promise-token ledger. -/
def totalHoldings (g : Character → Character → Int) : Int :=
  (CHARACTER_ORDER.map (fun h => rowTotal g h)).sum

theorem totalHoldings_eq_colSums (g : Character → Character → Int) :
    totalHoldings g =
      colSum g Character.carmichael + colSum g Character.quincy
        + colSum g Character.medici + colSum g Character.dambrosio := by
  simp [totalHoldings, colSum, rowTotal, CHARACTER_ORDER]
  ring

theorem colSum_update (g : Character → Character → Int) (x : Character)
    (row : Character → Int) (o : Character) :
    colSum (Function.update g x row) o = colSum g o - g x o + row o := by
  cases x <;> simp [colSum, CHARACTER_ORDER, Function.update_apply] <;> ring

theorem colSum_transfer (g : Character → Character → Int) (src dst owner : Character)
    (amt : Int) (o : Character) :
    colSum (transfer_units g src dst owner amt) o = colSum g o := by
  by_cases h1 : dst = src <;> by_cases h2 : o = owner <;>
    simp [transfer_units, colSum_update, Function.update_apply, h1, h2] <;> ring

theorem canonical_colSum (o : Character) : colSum canonicalHoldings o = 5 := by
  cases o <;> decide

theorem canonical_total : totalHoldings canonicalHoldings = 20 := by decide

/-! Holdings-preservation facts for the operations that never touch the ledger. -/

theorem record_utterance_holdings (cap : Nat) (s : GState) (p : Character)
    (text : String) (b : Bool) :
    ((record_utterance cap s p text b).2).holdings = s.holdings := by
  unfold record_utterance
  dsimp only
  repeat' split
  all_goals rfl

theorem take_token_holdings (s : GState) (p : Character) (t : Nat) :
    ((take_token s p t).2).holdings = s.holdings := by
  unfold take_token
  split <;> rfl

theorem cast_vote_holdings (s : GState) (p : Character) (i : Int) (b : Bool)
    (s' : GState) (h : cast_vote s p i = some (b, s')) : s'.holdings = s.holdings := by
  unfold cast_vote at h
  split at h
  · cases h; rfl
  · split at h
    · cases h; rfl
    · split at h
      · cases h
      · split at h
        · cases h; rfl
        · cases h; rfl

theorem force_vote_holdings (s : GState) (p : Character) (i : Int) :
    ((force_vote_by_referee s p i).2).holdings = s.holdings := by
  unfold force_vote_by_referee
  split
  · rfl
  · split
    · rfl
    · split <;> rfl

theorem frtsLoop_holdings (tokens : List Nat) :
    ∀ (players : List Character) (s : GState) (acc : List (Character × Nat)),
      ((frtsLoop tokens players s acc).2).holdings = s.holdings := by
  induction tokens with
  | nil => intro players s acc; rfl
  | cons t ts ih =>
    intro players s acc
    cases players with
    | nil => rfl
    | cons p ps =>
      unfold frtsLoop
      split
      · rw [ih, take_token_holdings]
      · exact ih ps s acc

theorem frts_holdings (s : GState) :
    ((force_remaining_tokens_seeded s).2).holdings = s.holdings := by
  unfold force_remaining_tokens_seeded
  exact frtsLoop_holdings _ _ _ _

theorem start_round_holdings (fresh : List EffectCard) (s s' : GState)
    (h : start_round fresh s = some s') : s'.holdings = s.holdings := by
  unfold start_round at h
  dsimp only at h
  split at h
  · cases h; rfl
  · split at h
    · cases h
    · cases h; rfl

/-! Column-sum preservation for the ledger-touching operations. -/

theorem colSum_change_vote (s : GState) (a t : Character) (i : Int) (o : Character) :
    colSum ((change_vote_using_target_token s a t i).2).holdings o = colSum s.holdings o := by
  unfold change_vote_using_target_token
  split
  · rfl
  · split
    · rfl
    · exact colSum_transfer _ _ _ _ _ _

theorem colSum_force_change (s : GState) (a t : Character) (i : Int) (o : Character) :
    colSum ((force_vote_change_with_three_tokens s a t i).2).holdings o = colSum s.holdings o := by
  unfold force_vote_change_with_three_tokens
  split
  · rfl
  · split
    · rfl
    · exact colSum_transfer _ _ _ _ _ _

theorem colSum_hr_step (g : Character → Character → Int) (thief : Character)
    (pick : Nat × Nat) (o : Character) :
    colSum (hr_step g thief pick) o = colSum g o := by
  unfold hr_step
  dsimp only
  split
  · rfl
  · split
    · rfl
    · exact colSum_transfer _ _ _ _ _ _

theorem colSum_hr (picks : Character → Nat × Nat) (s : GState) (o : Character) :
    colSum (apply_highway_robbery picks s).holdings o = colSum s.holdings o := by
  simp only [apply_highway_robbery, CHARACTER_ORDER, List.foldl]
  rw [colSum_hr_step, colSum_hr_step, colSum_hr_step, colSum_hr_step]

theorem colSum_ss_step (g : Character → Character → Int) (giver : Character)
    (pick : Nat) (o : Character) :
    colSum (ss_step g giver pick) o = colSum g o := by
  unfold ss_step
  dsimp only
  split
  · rfl
  · exact colSum_transfer _ _ _ _ _ _

theorem colSum_ss (picks : Character → Nat) (s : GState) (o : Character) :
    colSum (apply_secret_santa picks s).holdings o = colSum s.holdings o := by
  simp only [apply_secret_santa, CHARACTER_ORDER, List.foldl]
  rw [colSum_ss_step, colSum_ss_step, colSum_ss_step, colSum_ss_step]

theorem colSum_apply_effect (e : EffectCard) (hr : Character → Nat × Nat)
    (ss : Character → Nat) (s : GState) (o : Character)
    (hc : colSum s.holdings o = 5) :
    colSum (apply_effect e hr ss s).holdings o = 5 := by
  unfold apply_effect
  dsimp only
  split
  · exact hc
  · split
    · exact hc
    · split
      · rw [colSum_hr]; exact hc
      · split
        · exact canonical_colSum o
        · split
          · rw [colSum_ss]; exact hc
          · split
            · exact hc
            · exact hc

theorem resolveAdvance_holdings (d : List EffectCard) (s : GState) :
    (resolveAdvance d s).holdings = s.holdings := by
  unfold resolveAdvance
  dsimp only
  split <;> rfl

theorem colSum_resolve_round (hr : Character → Nat × Nat) (ss : Character → Nat)
    (newDeck : List EffectCard) (s : GState) (r : RoundResult) (s' : GState)
    (o : Character) (h : resolve_round hr ss newDeck s = some (r, s'))
    (hc : colSum s.holdings o = 5) : colSum s'.holdings o = 5 := by
  unfold resolve_round at h
  dsimp only at h
  split at h
  · cases h
  · split at h
    · cases h
      rw [resolveAdvance_holdings]
      exact hc
    · split at h
      · cases h
      · split at h
        · cases h
        · cases h
          rw [resolveAdvance_holdings]
          exact colSum_apply_effect _ _ _ _ _ hc

/-- Every engine operation preserves "each owner's column sums to 5". -/
theorem engineStep_colSum (s s' : GState) (h : EngineStep s s') (o : Character)
    (hc : colSum s.holdings o = 5) : colSum s'.holdings o = 5 := by
  cases h with
  | startRound fresh s s' hperm hr => rw [start_round_holdings fresh s s' hr]; exact hc
  | record cap s p text b => rw [record_utterance_holdings]; exact hc
  | take s p t => rw [take_token_holdings]; exact hc
  | enterVoting s => exact hc
  | castVote s p i b s' hcast => rw [cast_vote_holdings s p i b s' hcast]; exact hc
  | forceVote s p i => rw [force_vote_holdings]; exact hc
  | changeVote s a t i => rw [colSum_change_vote]; exact hc
  | forceChange s a t i => rw [colSum_force_change]; exact hc
  | resolve hr ss newDeck s r s' hperm hres => exact colSum_resolve_round _ _ _ _ _ _ _ hres hc
  | frts s => rw [frts_holdings]; exact hc
  | addContract s c => exact hc
  | voidContract s cid notes =>
    show colSum (void_contract s cid notes).holdings o = 5
    unfold void_contract
    split
    · exact hc
    · exact hc

/-- Every reachable state has every owner column summing to 5 (shared helper
for the two conservation claims). -/
theorem reach_colSum (s : GState) (h : Reach s) (o : Character) :
    colSum s.holdings o = 5 := by
  induction h with
  | init maxRounds pd ed hp he => exact canonical_colSum o
  | step s s' hs hstep ih => exact engineStep_colSum s s' hstep o ih

/-- C1: Conservation law — for every state reachable from the initial state by
any sequence of engine operations (including `change_vote_using_target_token`,
`force_vote_change_with_three_tokens`, and the Highway Robbery, Jubilee, and
Secret Santa effect applications), the sum of all values in the promise-token
holdings ledger equals exactly 20. -/
theorem c1_total_holdings_conserved (s : GState) (h : Reach s) :
    totalHoldings s.holdings = 20 := by
  rw [totalHoldings_eq_colSums, reach_colSum s h, reach_colSum s h, reach_colSum s h,
    reach_colSum s h]
  rfl

/-- Witness for C1 at a concrete reachable state. -/
theorem c1_total_holdings_conserved_witness :
    totalHoldings (init_state 10 PROPOSAL_CARDS EFFECT_CARDS).holdings = 20 :=
  c1_total_holdings_conserved _
    (Reach.init 10 PROPOSAL_CARDS EFFECT_CARDS (List.Perm.refl _) (List.Perm.refl _))

/-- C10: Per-owner conservation (stronger than the total-20 law) — for every
owner `o` and every state reachable by any sequence of engine operations, the
sum over all holder characters of `holdings[h][o]` equals exactly 5: both
vote-change mechanisms and the Highway Robbery and Secret Santa effects move
units only within a single owner's column, and Jubilee resets every column to
5 on the diagonal. -/
theorem c10_per_owner_conserved (s : GState) (o : Character) (h : Reach s) :
    colSum s.holdings o = 5 :=
  reach_colSum s h o

/-- Witness for C10 at a concrete reachable state and owner. -/
theorem c10_per_owner_conserved_witness :
    colSum (init_state 10 PROPOSAL_CARDS EFFECT_CARDS).holdings Character.medici = 5 :=
  c10_per_owner_conserved _ Character.medici
    (Reach.init 10 PROPOSAL_CARDS EFFECT_CARDS (List.Perm.refl _) (List.Perm.refl _))

/-! ## Word-splitting lemmas: stripping boundary whitespace changes no words -/

theorem wordsAux_all_space (sp : List Char) :
    (∀ c ∈ sp, pyIsSpace c) → ∀ cur, wordsAux sp cur = wordsAux [] cur := by
  induction sp with
  | nil => intro _ _; rfl
  | cons c cs ih =>
    intro hsp cur
    have hc : pyIsSpace c := hsp c (by simp)
    have ihs : ∀ d ∈ cs, pyIsSpace d := fun d hd => hsp d (by simp [hd])
    have h0 : wordsAux cs [] = [] := by simpa using ih ihs []
    by_cases hcur : cur.isEmpty <;> simp [wordsAux, hc, hcur, h0]

theorem wordsAux_append_space (l sp : List Char) (hsp : ∀ c ∈ sp, pyIsSpace c)
    (cur : List Char) : wordsAux (l ++ sp) cur = wordsAux l cur := by
  induction l generalizing cur with
  | nil => simpa using wordsAux_all_space sp hsp cur
  | cons c cs ih =>
    by_cases hc : pyIsSpace c
    · by_cases hcur : cur.isEmpty <;> simp [wordsAux, hc, hcur, ih]
    · simp [wordsAux, hc, ih]

theorem wordsAux_dropWhile (l : List Char) :
    wordsAux (l.dropWhile pyIsSpace) [] = wordsAux l [] := by
  induction l with
  | nil => rfl
  | cons c cs ih =>
    by_cases hc : pyIsSpace c
    · simpa [List.dropWhile, hc, wordsAux] using ih
    · simp [List.dropWhile, hc]

/-- Python's `text.strip().split()` equals `text.split()`. -/
theorem pyWords_pyStrip (s : String) : pyWords (pyStrip s) = pyWords s := by
  unfold pyWords pyStrip
  show wordsAux _ [] = wordsAux s.data []
  rw [← wordsAux_dropWhile s.data]
  set l1 := s.data.dropWhile pyIsSpace with hl1
  have hdecomp : l1 = (l1.reverse.dropWhile pyIsSpace).reverse
      ++ (l1.reverse.takeWhile pyIsSpace).reverse := by
    have h : l1.reverse.takeWhile pyIsSpace ++ l1.reverse.dropWhile pyIsSpace = l1.reverse := by
      rw [List.takeWhile_append_dropWhile]
    calc l1 = l1.reverse.reverse := (List.reverse_reverse l1).symm
      _ = (l1.reverse.takeWhile pyIsSpace ++ l1.reverse.dropWhile pyIsSpace).reverse := by
          rw [h]
      _ = (l1.reverse.dropWhile pyIsSpace).reverse ++ (l1.reverse.takeWhile pyIsSpace).reverse := by
          rw [List.reverse_append]
  have hsp : ∀ c ∈ (l1.reverse.takeWhile pyIsSpace).reverse, pyIsSpace c := by
    intro c hc
    rw [List.mem_reverse] at hc
    exact List.mem_takeWhile_imp hc
  conv_rhs => rw [hdecomp]
  rw [wordsAux_append_space _ _ hsp]

/-- A string with at least one word does not strip to the empty string. -/
theorem pyStrip_ne_empty_of_words (s : String) (h : pyWords s ≠ []) : pyStrip s ≠ "" := by
  intro hs
  apply h
  rw [← pyWords_pyStrip, hs]
  rfl

/-! ## C3: token-claim legality -/

theorem can_take_token_iff (s : GState) (p : Character) (t : Nat) :
    can_take_token s p t = true ↔
      (s.phase = Phase.negotiation ∧ (t = 1 ∨ t = 2 ∨ t = 3 ∨ t = 4)
        ∧ pyContains s.token_assignments t = false
        ∧ (pyValues s.token_assignments).contains p = false
        ∧ (t = 3 ∨ pyContains s.token_assignments 3 = true)) := by
  unfold can_take_token
  repeat' split
  all_goals simp_all
  all_goals (intro h3a; tauto)

theorem take_token_fst (s : GState) (p : Character) (t : Nat) :
    (take_token s p t).1 = can_take_token s p t := by
  unfold take_token
  split <;> simp_all

/-- C3: `takeToken(player, token)` succeeds if and only if the phase is
NEGOTIATION, the token is in {1,2,3,4}, the token is unassigned, the player
holds no token, and either the token is 3 or token 3 is already assigned; on
any violation it returns `false` as a no-op with the state unchanged (the
operation is a total function — it never raises).  Consequently, with no
token assigned yet, a successful claim can only be of token 3. -/
theorem c3_take_token_legality (s : GState) (p : Character) (t : Nat) :
    ((take_token s p t).1 = true ↔
      (s.phase = Phase.negotiation ∧ (t = 1 ∨ t = 2 ∨ t = 3 ∨ t = 4)
        ∧ pyContains s.token_assignments t = false
        ∧ (pyValues s.token_assignments).contains p = false
        ∧ (t = 3 ∨ pyContains s.token_assignments 3 = true)))
    ∧ ((take_token s p t).1 = false → (take_token s p t).2 = s)
    ∧ (s.token_assignments = [] → (take_token s p t).1 = true → t = 3) := by
  refine ⟨?_, ?_, ?_⟩
  · rw [take_token_fst]
    exact can_take_token_iff s p t
  · intro hf
    by_cases hc : can_take_token s p t = true
    · rw [take_token_fst, hc] at hf
      cases hf
    · simp [take_token, hc]
  · intro h0 ht
    rw [take_token_fst, can_take_token_iff] at ht
    rcases ht with ⟨-, -, -, -, h3 | habs⟩
    · exact h3
    · rw [h0] at habs
      simp [pyContains, pyGet] at habs

/-- A fresh negotiation-phase state (round dealt, no tokens claimed). -/
def negotiationStart : GState :=
  { init_state 10 PROPOSAL_CARDS EFFECT_CARDS with phase := Phase.negotiation }

/-- Witness for C3: in a fresh negotiation state token 3 is claimable, token 1
is not, and the failed claim leaves the state unchanged. -/
theorem c3_take_token_legality_witness :
    (take_token negotiationStart Character.carmichael 3).1 = true
      ∧ (take_token negotiationStart Character.carmichael 1).1 = false
      ∧ (take_token negotiationStart Character.carmichael 1).2 = negotiationStart := by
  refine ⟨(c3_take_token_legality negotiationStart Character.carmichael 3).1.mpr
    ⟨rfl, by decide, by decide, by decide, Or.inl rfl⟩, by decide, ?_⟩
  exact (c3_take_token_legality negotiationStart Character.carmichael 1).2.1 (by decide)

/-! ## C4: exact word-cap truncation -/

theorem insertSet_contains_self {α : Type} [DecidableEq α] (x : α) (l : List α) :
    (insertSet x l).contains x = true := by
  unfold insertSet
  split
  · assumption
  · simp

/-- C4: in the NEGOTIATION phase, a player with `r > 0` words of remaining
budget who submits an utterance of `n > r` words gets exactly the first `r`
words kept and becomes muted; a player whose budget is exhausted (`r ≤ 0`)
submitting a non-empty utterance gets empty kept text and is marked muted. -/
theorem c4_word_cap_truncation (cap : Nat) (s : GState) (p : Character)
    (text : String) (b : Bool) (hphase : s.phase = Phase.negotiation) :
    ((0 : Int) < (cap : Int) - (s.word_counts p : Int) →
        ((cap : Int) - (s.word_counts p : Int)) < ((pyWords text).length : Int) →
        (record_utterance cap s p text b).1
            = (joinWords ((pyWords text).take ((cap : Int) - (s.word_counts p : Int)).toNat), true)
          ∧ ((pyWords text).take ((cap : Int) - (s.word_counts p : Int)).toNat).length
              = ((cap : Int) - (s.word_counts p : Int)).toNat
          ∧ ((record_utterance cap s p text b).2).muted_players.contains p = true)
    ∧ ((cap : Int) - (s.word_counts p : Int) ≤ 0 → pyWords text ≠ [] →
        (record_utterance cap s p text b).1 = ("", true)
          ∧ ((record_utterance cap s p text b).2).muted_players.contains p = true) := by
  constructor
  · intro hr hn
    have hwne : pyWords text ≠ [] := by
      intro h0
      rw [h0] at hn
      simp at hn
      omega
    have hst : pyStrip text ≠ "" := pyStrip_ne_empty_of_words text hwne
    unfold record_utterance
    dsimp only
    rw [if_neg hst, if_neg (by simp [hphase]), pyWords_pyStrip, if_neg (not_le.mpr hr)]
    have hlen : ((pyWords text).take ((cap : Int) - (s.word_counts p : Int)).toNat).length
        = ((cap : Int) - (s.word_counts p : Int)).toNat := by
      rw [List.length_take]
      omega
    have hcap : cap ≤ s.word_counts p
        + ((pyWords text).take ((cap : Int) - (s.word_counts p : Int)).toNat).length := by
      rw [hlen]
      omega
    rw [if_pos hcap]
    exact ⟨by rw [insertSet_contains_self], hlen, insertSet_contains_self p s.muted_players⟩
  · intro hr0 hwne
    have hst : pyStrip text ≠ "" := pyStrip_ne_empty_of_words text hwne
    unfold record_utterance
    dsimp only
    rw [if_neg hst, if_neg (by simp [hphase]), if_pos hr0]
    exact ⟨rfl, insertSet_contains_self p s.muted_players⟩

/-- Witness for C4: cap 5, fresh budget, a six-word utterance keeps exactly
the first five words and mutes the speaker. -/
theorem c4_word_cap_truncation_witness :
    (record_utterance 5 negotiationStart Character.carmichael
        "one two three four five six" true).1 = ("one two three four five", true)
      ∧ ((record_utterance 5 negotiationStart Character.carmichael
        "one two three four five six" true).2).muted_players.contains Character.carmichael
          = true := by
  have h := (c4_word_cap_truncation 5 negotiationStart Character.carmichael
    "one two three four five six" true rfl).1 (by decide) (by decide)
  refine ⟨?_, h.2.2⟩
  rw [h.1]
  rfl

/-! ## C5: voting order -/

/-- A legally played-out voting round: all four tokens assigned, all four
players voted in token order, so the voting cursor is 4. -/
def c5VotingDone : GState :=
  { init_state 10 PROPOSAL_CARDS EFFECT_CARDS with
      phase := Phase.voting
      token_assignments := [(1, Character.quincy), (2, Character.medici),
        (3, Character.carmichael), (4, Character.dambrosio)]
      votes := [(Character.quincy, 0), (Character.medici, 0),
        (Character.carmichael, 1), (Character.dambrosio, 1)]
      voting_cursor := 4 }

/-- C5 counterexample: the claim says every out-of-order cast returns `false`,
but once all four votes are in (`voting_cursor = 4`) a further cast in the
VOTING phase indexes `[1, 2, 3, 4][4]` and raises `IndexError` (modelled as
`none`) instead of returning `false`. -/
theorem c5_claim_counterexample :
    c5VotingDone.phase = Phase.voting
      ∧ cast_vote c5VotingDone Character.carmichael 0 = none
      ∧ ∀ s' : GState, cast_vote c5VotingDone Character.carmichael 0 ≠ some (false, s') := by
  refine ⟨rfl, rfl, ?_⟩
  intro s' h
  have h' : (none : Option (Bool × GState)) = some (false, s') := h
  exact Option.noConfusion h'

/-- C5 amended: while fewer than four votes have been cast
(`voting_cursor < 4`), `castVote` is total and succeeds exactly when the phase
is VOTING, the proposal index is 0 or 1, and the caller is the player assigned
the token currently indicated by the cursor (token order 1, 2, 3, 4); every
other cast returns `false` leaving the state unchanged, and every successful
cast advances the cursor by exactly one.  (Once the cursor has passed token 4,
a further cast raises `IndexError` — see the counterexample.) -/
theorem c5_voting_order_amended (s : GState) (p : Character) (i : Int)
    (hcur : s.voting_cursor < 4) :
    ∃ b s', cast_vote s p i = some (b, s')
      ∧ (b = true ↔ s.phase = Phase.voting ∧ (i = 0 ∨ i = 1)
          ∧ pyGet s.token_assignments (([1, 2, 3, 4] : List Nat).getD s.voting_cursor 0)
              = some p)
      ∧ (b = false → s' = s)
      ∧ (b = true → s'.voting_cursor = s.voting_cursor + 1) := by
  obtain ⟨tok, htok⟩ : ∃ tok, ([1, 2, 3, 4] : List Nat).get? s.voting_cursor = some tok := by
    cases hg : ([1, 2, 3, 4] : List Nat).get? s.voting_cursor with
    | none =>
      have := List.get?_eq_none.mp hg
      simp at this
      omega
    | some v => exact ⟨v, rfl⟩
  have hDtok : ([1, 2, 3, 4] : List Nat).getD s.voting_cursor 0 = tok := by
    rw [List.getD_eq_get?, htok]
    rfl
  rw [hDtok]
  unfold cast_vote
  rw [htok]
  dsimp only
  by_cases hph : s.phase = Phase.voting
  · rw [if_neg (by simp [hph])]
    by_cases hi : i = 0 ∨ i = 1
    · rw [if_neg (not_not_intro hi)]
      by_cases hp : pyGet s.token_assignments tok = some p
      · rw [if_neg (not_not_intro hp)]
        exact ⟨true, _, rfl, by simp [hph, hi, hp], by simp, fun _ => rfl⟩
      · rw [if_pos hp]
        exact ⟨false, s, rfl, by simp [hp], fun _ => rfl, by simp⟩
    · rw [if_pos hi]
      exact ⟨false, s, rfl, by simp [hi], fun _ => rfl, by simp⟩
  · rw [if_pos hph]
    exact ⟨false, s, rfl, by simp [hph], fun _ => rfl, by simp⟩

/-- A fresh voting-phase state with all tokens assigned and no vote yet. -/
def c5VotingStart : GState :=
  { init_state 10 PROPOSAL_CARDS EFFECT_CARDS with
      phase := Phase.voting
      token_assignments := [(3, Character.carmichael), (1, Character.quincy),
        (2, Character.medici), (4, Character.dambrosio)] }

/-- Witness for the amended C5 at a concrete in-range state. -/
theorem c5_voting_order_amended_witness :
    c5VotingStart.voting_cursor < 4
      ∧ (∃ b s', cast_vote c5VotingStart Character.quincy 0 = some (b, s')
          ∧ (b = true ↔ c5VotingStart.phase = Phase.voting ∧ ((0 : Int) = 0 ∨ (0 : Int) = 1)
              ∧ pyGet c5VotingStart.token_assignments
                  (([1, 2, 3, 4] : List Nat).getD c5VotingStart.voting_cursor 0)
                    = some Character.quincy)
          ∧ (b = false → s' = c5VotingStart)
          ∧ (b = true → s'.voting_cursor = c5VotingStart.voting_cursor + 1)) :=
  ⟨by decide, c5_voting_order_amended c5VotingStart Character.quincy 0 (by decide)⟩

/-! ## C6: tie-break on round resolution -/

theorem resolveAdvance_bells (d : List EffectCard) (s : GState) :
    (resolveAdvance d s).bells = s.bells := by
  unfold resolveAdvance
  dsimp only
  split <;> rfl

theorem resolveAdvance_toggles (d : List EffectCard) (s : GState) :
    (resolveAdvance d s).active_toggles = s.active_toggles := by
  unfold resolveAdvance
  dsimp only
  split <;> rfl

/-- C6: whenever the vote counts for proposals 0 and 1 are equal, if the
"Shotgun" toggle is active and the token-1 holder has voted, the round passes
that holder's chosen proposal with a reported winning-vote count of 3 and a
majority outcome; otherwise a tie passes nothing — no proposal passes, no
bells are credited, and no effect card is applied (bells, holdings and
toggles are unchanged). -/
theorem c6_tie_break (hr : Character → Nat × Nat) (ss : Character → Nat)
    (newDeck : List EffectCard) (s : GState)
    (hvalid : ∀ v ∈ pyValues s.votes, v = 0 ∨ v = 1)
    (htie : countVotes s.votes 0 = countVotes s.votes 1) :
    (∀ (p1 : Character) (v : Int) props effs,
        s.active_toggles.contains "Shotgun" = true →
        pyGet s.token_assignments 1 = some p1 →
        pyGet s.votes p1 = some v →
        s.current_proposals = some props →
        s.current_effects = some effs →
        ∃ (eff : String) (s' : GState),
          resolve_round hr ss newDeck s
            = some (⟨some v, some OutcomeType.majority, 3, some eff⟩, s'))
    ∧ ((s.active_toggles.contains "Shotgun" = false
          ∨ ∀ p1 : Character, pyGet s.token_assignments 1 = some p1 → pyGet s.votes p1 = none) →
        ∃ s' : GState,
          resolve_round hr ss newDeck s
              = some (⟨none, none, countVotes s.votes 0, none⟩, s')
            ∧ s'.bells = s.bells ∧ s'.holdings = s.holdings
            ∧ s'.active_toggles = s.active_toggles) := by
  have hanyf : ¬ ((pyValues s.votes).any (fun v => decide (¬ (v = 0 ∨ v = 1))) = true) := by
    simp only [List.any_eq_true, decide_eq_true_eq]
    rintro ⟨v, hv, hnv⟩
    exact hnv (hvalid v hv)
  constructor
  · intro p1 v props effs hshot hp1 hv hprops heffs
    have hsel : resolveSelect { s with phase := Phase.resolution }
        = some (v, OutcomeType.majority, 3) := by
      unfold resolveSelect
      dsimp only
      rw [if_pos htie, if_pos hshot, hp1]
      dsimp only
      rw [hv]
    unfold resolve_round
    dsimp only
    rw [if_neg hanyf, hsel]
    dsimp only
    rw [hprops]
    dsimp only
    rw [heffs]
    dsimp only
    exact ⟨_, _, rfl⟩
  · intro hno
    have hsel : resolveSelect { s with phase := Phase.resolution } = none := by
      unfold resolveSelect
      dsimp only
      rw [if_pos htie]
      rcases hno with hfalse | hnovote
      · rw [if_neg (by rw [hfalse]; exact Bool.false_ne_true)]
      · by_cases hshot : s.active_toggles.contains "Shotgun" = true
        · rw [if_pos hshot]
          cases hp1 : pyGet s.token_assignments 1 with
          | none => rfl
          | some p1 =>
            dsimp only
            rw [hnovote p1 hp1]
        · rw [if_neg hshot]
    have hmax : max (countVotes s.votes 0) (countVotes s.votes 1) = countVotes s.votes 0 := by
      rw [htie, Nat.max_self]
    unfold resolve_round
    dsimp only
    rw [if_neg hanyf, hsel]
    dsimp only
    rw [hmax]
    refine ⟨resolveAdvance newDeck { s with phase := Phase.resolution }, rfl, ?_, ?_, ?_⟩
    · rw [resolveAdvance_bells]
    · rw [resolveAdvance_holdings]
    · rw [resolveAdvance_toggles]

/-- A 2–2 tie after a full legal voting round with the "Shotgun" toggle
active; the token-1 holder (Quincy) voted for proposal 0. -/
def c6TieState : GState :=
  { c5VotingDone with
      active_toggles := ["Shotgun"]
      current_proposals := some (⟨"Winter Solstice", seq "WWP", seq "WWWW"⟩,
        ⟨"Spring Equinox", seq "PPS", seq "PPPP"⟩)
      current_effects := some ((⟨"Null 1", EffectKind.null, "No effect."⟩,
        ⟨"Null 2", EffectKind.null, "No effect."⟩),
        (⟨"Null 3", EffectKind.null, "No effect."⟩,
         ⟨"Null 4", EffectKind.null, "No effect."⟩)) }

/-- Witness for C6: on the concrete 2–2 tie with Shotgun active, resolution
passes Quincy's proposal 0 with a reported 3-vote majority outcome. -/
theorem c6_tie_break_witness :
    (∀ v ∈ pyValues c6TieState.votes, v = 0 ∨ v = 1)
      ∧ countVotes c6TieState.votes 0 = countVotes c6TieState.votes 1
      ∧ ∃ (eff : String) (s' : GState),
          resolve_round (fun _ => (0, 0)) (fun _ => 0) EFFECT_CARDS c6TieState
            = some (⟨some 0, some OutcomeType.majority, 3, some eff⟩, s') := by
  refine ⟨by decide, by decide, ?_⟩
  exact (c6_tie_break (fun _ => (0, 0)) (fun _ => 0) EFFECT_CARDS c6TieState
      (by decide) (by decide)).1 Character.quincy 0 _ _ (by decide) (by decide)
    (by decide) rfl rfl

/-! ## Association-list lemmas for the Python dict model -/

theorem pyGet_cons {α β : Type} [DecidableEq α] (a : α) (b : β) (d : List (α × β)) (k : α) :
    pyGet ((a, b) :: d) k = if a = k then some b else pyGet d k := by
  by_cases h : a = k
  · simp [pyGet, List.find?_cons_of_pos, h]
  · simp [pyGet, List.find?_cons_of_neg, h]

theorem pyContains_eq_false_iff {α β : Type} [DecidableEq α] (d : List (α × β)) (k : α) :
    pyContains d k = false ↔ pyGet d k = none := by
  unfold pyContains
  cases pyGet d k <;> simp

theorem pyContains_eq_true_iff {α β : Type} [DecidableEq α] (d : List (α × β)) (k : α) :
    pyContains d k = true ↔ pyGet d k ≠ none := by
  unfold pyContains
  cases pyGet d k <;> simp

theorem pyContains_iff_mem_keys {α β : Type} [DecidableEq α] (d : List (α × β)) (k : α) :
    pyContains d k = true ↔ k ∈ d.map Prod.fst := by
  unfold pyContains pyGet
  constructor
  · intro h
    cases hf : List.find? (fun e => decide (e.1 = k)) d with
    | none => rw [hf] at h; simp at h
    | some e =>
      have he := List.mem_of_find?_eq_some hf
      have hp := List.find?_some hf
      simp at hp
      exact List.mem_map.mpr ⟨e, he, hp⟩
  · intro h
    obtain ⟨e, he, hk⟩ := List.mem_map.mp h
    cases hf : List.find? (fun x => decide (x.1 = k)) d with
    | none =>
      have := List.find?_eq_none.mp hf e he
      simp [hk] at this
    | some e2 => simp

theorem pySet_of_not_contains {α β : Type} [DecidableEq α] (d : List (α × β)) (k : α) (v : β)
    (h : pyContains d k = false) : pySet d k v = d ++ [(k, v)] := by
  unfold pySet
  rw [if_neg (by rw [h]; exact Bool.false_ne_true)]

theorem pyGet_append_single {α β : Type} [DecidableEq α] (d : List (α × β)) (k : α) (v : β)
    (k' : α) :
    pyGet (d ++ [(k, v)]) k'
      = match pyGet d k' with
        | some w => some w
        | none => if k = k' then some v else none := by
  induction d with
  | nil => simp [pyGet_cons, pyGet]
  | cons e d ih =>
    obtain ⟨a, b⟩ := e
    by_cases h : a = k'
    · simp [pyGet_cons, h]
    · simpa [pyGet_cons, h] using ih

theorem pyGet_mapReplace_ne {α β : Type} [DecidableEq α] (d : List (α × β)) (k : α) (v : β)
    (k' : α) (hne : k' ≠ k) :
    pyGet (d.map (fun e => if e.1 = k then (k, v) else e)) k' = pyGet d k' := by
  induction d with
  | nil => rfl
  | cons e d ih =>
    obtain ⟨a, b⟩ := e
    simp only [List.map_cons]
    dsimp only
    by_cases h : a = k
    · subst h
      rw [if_pos rfl, pyGet_cons, pyGet_cons,
        if_neg (fun hh : a = k' => hne hh.symm), if_neg (fun hh : a = k' => hne hh.symm)]
      exact ih
    · rw [if_neg h, pyGet_cons, pyGet_cons]
      by_cases h2 : a = k'
      · simp [h2]
      · rw [if_neg h2, if_neg h2]
        exact ih

theorem pyGet_mapReplace_self {α β : Type} [DecidableEq α] (d : List (α × β)) (k : α) (v : β)
    (hc : k ∈ d.map Prod.fst) :
    pyGet (d.map (fun e => if e.1 = k then (k, v) else e)) k = some v := by
  induction d with
  | nil => simp at hc
  | cons e d ih =>
    obtain ⟨a, b⟩ := e
    simp only [List.map_cons]
    dsimp only
    by_cases h : a = k
    · rw [if_pos h, pyGet_cons, if_pos rfl]
    · rw [if_neg h, pyGet_cons, if_neg h]
      apply ih
      simp only [List.map_cons, List.mem_cons] at hc
      rcases hc with h1 | h2
      · exact absurd h1.symm h
      · exact h2

theorem pyGet_pySet_self {α β : Type} [DecidableEq α] (d : List (α × β)) (k : α) (v : β) :
    pyGet (pySet d k v) k = some v := by
  unfold pySet
  split
  · rename_i hc
    exact pyGet_mapReplace_self d k v ((pyContains_iff_mem_keys d k).mp hc)
  · rename_i hc
    have h : pyContains d k = false := by
      cases hcc : pyContains d k
      · rfl
      · exact absurd hcc hc
    rw [pyGet_append_single, (pyContains_eq_false_iff d k).mp h]
    simp

theorem pyGet_pySet_ne {α β : Type} [DecidableEq α] (d : List (α × β)) (k : α) (v : β)
    (k' : α) (hne : k' ≠ k) : pyGet (pySet d k v) k' = pyGet d k' := by
  unfold pySet
  split
  · exact pyGet_mapReplace_ne d k v k' hne
  · rw [pyGet_append_single]
    cases hg : pyGet d k' with
    | some w => rfl
    | none => rw [if_neg (fun hh : k = k' => hne hh.symm)]

/-! ## Well-formedness of the token-assignment table, and C9 -/

theorem contains_eq_false_iff {α : Type} [DecidableEq α] (l : List α) (x : α) :
    l.contains x = false ↔ x ∉ l := by
  simp

theorem decide_bool_eq (b : Bool) : decide (b = true) = b := by
  cases b <;> rfl

theorem decide_not_bool_eq (b : Bool) : decide (¬ b = true) = !b := by
  cases b <;> rfl

/-- The structural invariant of `token_assignments` maintained by every engine
operation: keys are vote tokens 1–4, no token is assigned twice, no player
holds two tokens. -/
def WfAssignments (s : GState) : Prop :=
  (∀ kv ∈ s.token_assignments, kv.1 = 1 ∨ kv.1 = 2 ∨ kv.1 = 3 ∨ kv.1 = 4)
    ∧ (s.token_assignments.map Prod.fst).Nodup
    ∧ (pyValues s.token_assignments).Nodup

theorem wf_of_assignments_eq {s s' : GState}
    (h : s'.token_assignments = s.token_assignments) (hw : WfAssignments s) :
    WfAssignments s' := by
  unfold WfAssignments at *
  rw [h]
  exact hw

theorem record_utterance_assignments (cap : Nat) (s : GState) (p : Character)
    (text : String) (b : Bool) :
    ((record_utterance cap s p text b).2).token_assignments = s.token_assignments := by
  unfold record_utterance
  dsimp only
  repeat' split
  all_goals rfl

theorem cast_vote_assignments (s : GState) (p : Character) (i : Int) (b : Bool)
    (s' : GState) (h : cast_vote s p i = some (b, s')) :
    s'.token_assignments = s.token_assignments := by
  unfold cast_vote at h
  split at h
  · cases h; rfl
  · split at h
    · cases h; rfl
    · split at h
      · cases h
      · split at h
        · cases h; rfl
        · cases h; rfl

theorem force_vote_assignments (s : GState) (p : Character) (i : Int) :
    ((force_vote_by_referee s p i).2).token_assignments = s.token_assignments := by
  unfold force_vote_by_referee
  repeat' split
  all_goals rfl

theorem change_vote_assignments (s : GState) (a t : Character) (i : Int) :
    ((change_vote_using_target_token s a t i).2).token_assignments = s.token_assignments := by
  unfold change_vote_using_target_token
  repeat' split
  all_goals rfl

theorem force_change_assignments (s : GState) (a t : Character) (i : Int) :
    ((force_vote_change_with_three_tokens s a t i).2).token_assignments
      = s.token_assignments := by
  unfold force_vote_change_with_three_tokens
  repeat' split
  all_goals rfl

theorem apply_effect_assignments (e : EffectCard) (hr : Character → Nat × Nat)
    (ss : Character → Nat) (s : GState) :
    (apply_effect e hr ss s).token_assignments = s.token_assignments := by
  unfold apply_effect apply_highway_robbery apply_jubilee apply_secret_santa
  dsimp only
  repeat' split
  all_goals rfl

theorem resolveAdvance_assignments (d : List EffectCard) (s : GState) :
    (resolveAdvance d s).token_assignments = s.token_assignments := by
  unfold resolveAdvance
  dsimp only
  split <;> rfl

theorem resolve_round_assignments (hr : Character → Nat × Nat) (ss : Character → Nat)
    (newDeck : List EffectCard) (s : GState) (r : RoundResult) (s' : GState)
    (h : resolve_round hr ss newDeck s = some (r, s')) :
    s'.token_assignments = s.token_assignments := by
  unfold resolve_round at h
  dsimp only at h
  split at h
  · cases h
  · split at h
    · cases h
      rw [resolveAdvance_assignments]
    · split at h
      · cases h
      · split at h
        · cases h
        · cases h
          rw [resolveAdvance_assignments, apply_effect_assignments]

theorem take_token_of_can (s : GState) (p : Character) (t : Nat)
    (h : can_take_token s p t = true) :
    take_token s p t
      = (true,
        { s with
            token_assignments := pySet s.token_assignments t p
            transcript := s.transcript ++ [p.value ++ " took vote token " ++ toString t] }) := by
  unfold take_token
  rw [if_pos h]

theorem take_token_wf (s : GState) (p : Character) (t : Nat) (hw : WfAssignments s) :
    WfAssignments (take_token s p t).2 := by
  by_cases hc : can_take_token s p t = true
  · rw [take_token_of_can s p t hc]
    obtain ⟨hmem, hcont, hheld, hor⟩ := ((can_take_token_iff s p t).mp hc).2
    obtain ⟨hk, hnd, hvd⟩ := hw
    have happ : pySet s.token_assignments t p = s.token_assignments ++ [(t, p)] :=
      pySet_of_not_contains _ _ _ hcont
    have hkeyfree : t ∉ s.token_assignments.map Prod.fst := by
      intro hm
      rw [(pyContains_iff_mem_keys _ _).mpr hm] at hcont
      cases hcont
    have hvalfree : p ∉ pyValues s.token_assignments :=
      (contains_eq_false_iff _ _).mp hheld
    refine ⟨?_, ?_, ?_⟩
    · intro kv hkv
      dsimp only at hkv
      rw [happ] at hkv
      rcases List.mem_append.mp hkv with h1 | h2
      · exact hk kv h1
      · simp at h2
        rw [h2]
        exact hmem
    · show ((pySet s.token_assignments t p).map Prod.fst).Nodup
      rw [happ]
      simp only [List.map_append, List.map_cons, List.map_nil]
      rw [List.nodup_append]
      refine ⟨hnd, List.nodup_singleton t, ?_⟩
      intro x hx hx'
      simp at hx'
      rw [hx'] at hx
      exact hkeyfree hx
    · show (pyValues (pySet s.token_assignments t p)).Nodup
      rw [happ]
      unfold pyValues
      simp only [List.map_append, List.map_cons, List.map_nil]
      rw [List.nodup_append]
      refine ⟨hvd, List.nodup_singleton p, ?_⟩
      intro x hx hx'
      simp at hx'
      rw [hx'] at hx
      exact hvalfree hx
  · have hne : take_token s p t = (false, s) := by
      unfold take_token
      rw [if_neg hc]
    rw [hne]
    exact hw

theorem frtsLoop_wf (tokens : List Nat) :
    ∀ (players : List Character) (s : GState) (acc : List (Character × Nat)),
      WfAssignments s → WfAssignments (frtsLoop tokens players s acc).2 := by
  induction tokens with
  | nil => intro players s acc hw; exact hw
  | cons t ts ih =>
    intro players s acc hw
    cases players with
    | nil => exact hw
    | cons p ps =>
      unfold frtsLoop
      split
      · exact ih ps _ _ (take_token_wf s p t hw)
      · exact ih ps s acc hw

theorem engineStep_wf (s s' : GState) (h : EngineStep s s') (hw : WfAssignments s) :
    WfAssignments s' := by
  cases h with
  | startRound fresh s s' hperm hr =>
    unfold start_round at hr
    split at hr
    · cases hr
      exact wf_of_assignments_eq rfl hw
    · split at hr
      · cases hr
      · cases hr
        exact ⟨by simp, by simp [List.nodup_nil], by simp [pyValues, List.nodup_nil]⟩
  | record cap s p text b => exact wf_of_assignments_eq (record_utterance_assignments cap s p text b) hw
  | take s p t => exact take_token_wf s p t hw
  | enterVoting s => exact wf_of_assignments_eq rfl hw
  | castVote s p i b s' hcast => exact wf_of_assignments_eq (cast_vote_assignments s p i b s' hcast) hw
  | forceVote s p i => exact wf_of_assignments_eq (force_vote_assignments s p i) hw
  | changeVote s a t i => exact wf_of_assignments_eq (change_vote_assignments s a t i) hw
  | forceChange s a t i => exact wf_of_assignments_eq (force_change_assignments s a t i) hw
  | resolve hr ss newDeck s r s' hperm hres =>
    exact wf_of_assignments_eq (resolve_round_assignments hr ss newDeck s r s' hres) hw
  | frts s => exact frtsLoop_wf _ _ _ _ hw
  | addContract s c => exact wf_of_assignments_eq rfl hw
  | voidContract s cid notes =>
    refine wf_of_assignments_eq ?_ hw
    unfold void_contract
    split <;> rfl

/-- Every reachable state has a well-formed token-assignment table. -/
theorem reach_wf (s : GState) (h : Reach s) : WfAssignments s := by
  induction h with
  | init maxRounds pd ed hp he =>
    exact ⟨by simp [init_state], by simp [init_state], by simp [init_state, pyValues]⟩
  | step s s' hs hstep ih => exact engineStep_wf s s' hstep ih

/-- Loop invariant for `frtsLoop`: with matching counts of fresh tokens and
fresh players, token 3 first unless already assigned, every pairing is taken
(no player is skipped) and all listed tokens end up assigned. -/
theorem frtsLoop_spec (tokens : List Nat) :
    ∀ (players : List Character) (s : GState) (acc : List (Character × Nat)),
      s.phase = Phase.negotiation →
      tokens.length = players.length →
      tokens.Nodup → players.Nodup →
      (∀ t ∈ tokens, (t = 1 ∨ t = 2 ∨ t = 3 ∨ t = 4) ∧ pyGet s.token_assignments t = none) →
      (∀ p ∈ players, (pyValues s.token_assignments).contains p = false) →
      (tokens ≠ [] → pyGet s.token_assignments 3 ≠ none ∨ tokens.head? = some 3) →
      (frtsLoop tokens players s acc).1
          = acc ++ (tokens.zip players).map (fun e => (e.2, e.1))
        ∧ ∀ t : Nat, (pyGet s.token_assignments t ≠ none ∨ t ∈ tokens) →
            pyGet ((frtsLoop tokens players s acc).2).token_assignments t ≠ none := by
  induction tokens with
  | nil =>
    intro players s acc _ _ _ _ _ _ _
    refine ⟨by simp [frtsLoop], ?_⟩
    intro t ht
    rcases ht with h | h
    · simpa [frtsLoop] using h
    · simp at h
  | cons t ts ih =>
    intro players s acc hphase hlen hndt hndp htok hpl h3
    cases players with
    | nil => simp at hlen
    | cons p ps =>
      have ht1 := (htok t (by simp)).1
      have ht2 := (htok t (by simp)).2
      have hcan : can_take_token s p t = true := by
        rw [can_take_token_iff]
        refine ⟨hphase, ht1, (pyContains_eq_false_iff _ _).mpr ht2, hpl p (by simp), ?_⟩
        rcases h3 (by simp) with hasg | hhd
        · exact Or.inr ((pyContains_eq_true_iff _ _).mpr hasg)
        · simp at hhd
          exact Or.inl hhd
      have hloop : frtsLoop (t :: ts) (p :: ps) s acc
          = frtsLoop ts ps (take_token s p t).2 (acc ++ [(p, t)]) := by
        show (if can_take_token s p t = true
            then frtsLoop ts ps (take_token s p t).2 (acc ++ [(p, t)])
            else frtsLoop ts ps s acc) = _
        rw [if_pos hcan]
      have hset : ((take_token s p t).2).token_assignments = pySet s.token_assignments t p := by
        rw [take_token_of_can s p t hcan]
      have hphase' : ((take_token s p t).2).phase = Phase.negotiation := by
        rw [take_token_of_can s p t hcan]
        exact hphase
      have happ : pySet s.token_assignments t p = s.token_assignments ++ [(t, p)] :=
        pySet_of_not_contains _ _ _ ((pyContains_eq_false_iff _ _).mpr ht2)
      have htok' : ∀ u ∈ ts, (u = 1 ∨ u = 2 ∨ u = 3 ∨ u = 4)
          ∧ pyGet ((take_token s p t).2).token_assignments u = none := by
        intro u hu
        have hne : u ≠ t := fun he => (List.nodup_cons.mp hndt).1 (he ▸ hu)
        refine ⟨(htok u (by simp [hu])).1, ?_⟩
        rw [hset, pyGet_pySet_ne _ _ _ _ hne]
        exact (htok u (by simp [hu])).2
      have hpl' : ∀ q ∈ ps,
          (pyValues ((take_token s p t).2).token_assignments).contains q = false := by
        intro q hq
        have hne : q ≠ p := fun he => (List.nodup_cons.mp hndp).1 (he ▸ hq)
        rw [hset, happ]
        have hv : pyValues (s.token_assignments ++ [(t, p)])
            = pyValues s.token_assignments ++ [p] := by
          simp [pyValues]
        rw [hv, contains_eq_false_iff]
        have h1 : q ∉ pyValues s.token_assignments :=
          (contains_eq_false_iff _ _).mp (hpl q (by simp [hq]))
        simp [h1, hne]
      have h3' : ts ≠ [] →
          pyGet ((take_token s p t).2).token_assignments 3 ≠ none ∨ ts.head? = some 3 := by
        intro _
        by_cases ht3 : t = 3
        · left
          rw [hset, ← ht3, pyGet_pySet_self]
          simp
        · rcases h3 (by simp) with hasg | hhd
          · left
            rw [hset, pyGet_pySet_ne _ _ _ _ (fun he : (3 : Nat) = t => ht3 he.symm)]
            exact hasg
          · simp at hhd
            exact absurd hhd ht3
      have hlen' : ts.length = ps.length := by simpa using hlen
      obtain ⟨ih1, ih2⟩ := ih ps (take_token s p t).2 (acc ++ [(p, t)]) hphase' hlen'
        (List.nodup_cons.mp hndt).2 (List.nodup_cons.mp hndp).2 htok' hpl' h3'
      constructor
      · rw [hloop, ih1]
        simp
      · intro u hu
        rw [hloop]
        apply ih2
        by_cases hut : u = t
        · left
          rw [hset, hut, pyGet_pySet_self]
          simp
        · rcases hu with hget | hmem
          · left
            rw [hset, pyGet_pySet_ne _ _ _ _ hut]
            exact hget
          · simp at hmem
            rcases hmem with h1 | h2
            · exact absurd h1 hut
            · exact Or.inr h2

set_option maxHeartbeats 1600000 in
/-- C9: in any reachable NEGOTIATION state, `forceRemainingTokensSeeded` pairs
the unassigned tokens, walked in fixed priority order [3, 4, 2, 1], with the
unassigned players in canonical character order; no pairing is skipped (each
performed assignment passes the `can_take_token` legality check, which the
code runs before every `take_token`), and after it returns all 4 tokens are
assigned. -/
theorem c9_force_remaining_tokens_seeded (s : GState) (hreach : Reach s)
    (hphase : s.phase = Phase.negotiation) :
    (force_remaining_tokens_seeded s).1
        = ((([3, 4, 2, 1].filter (fun t => ¬ pyContains s.token_assignments t)).zip
            (CHARACTER_ORDER.filter
              (fun p => ¬ (pyValues s.token_assignments).contains p))).map
          (fun e => (e.2, e.1)))
      ∧ ∀ t ∈ ([1, 2, 3, 4] : List Nat),
          pyContains ((force_remaining_tokens_seeded s).2).token_assignments t = true := by
  obtain ⟨hk, hnd, hvd⟩ := reach_wf s hreach
  have hkeymem : ∀ x ∈ s.token_assignments.map Prod.fst, x ∈ ([3, 4, 2, 1] : List Nat) := by
    intro x hx
    obtain ⟨kv, hkv, hfst⟩ := List.mem_map.mp hx
    rcases hk kv hkv with h1 | h1 | h1 | h1 <;> simp [← hfst, h1]
  have hvalmem : ∀ c : Character, c ∈ CHARACTER_ORDER := by
    intro c
    cases c <;> simp [CHARACTER_ORDER]
  -- the filters in the source, rewritten through `!`
  have hfe1 : (fun t => decide (¬ pyContains s.token_assignments t = true))
      = (fun t => !(pyContains s.token_assignments t)) := by
    funext t
    exact decide_not_bool_eq _
  have hfe2 : (fun p => decide (¬ (pyValues s.token_assignments).contains p = true))
      = (fun p => !((pyValues s.token_assignments).contains p)) := by
    funext p
    exact decide_not_bool_eq _
  -- counting: remaining tokens and remaining players are equinumerous
  have hperm1 : (([3, 4, 2, 1] : List Nat).filter
      (fun t => pyContains s.token_assignments t)).Perm (s.token_assignments.map Prod.fst) := by
    apply (List.perm_ext_iff_of_nodup (List.Nodup.filter _ (by decide)) hnd).mpr
    intro a
    rw [List.mem_filter]
    constructor
    · rintro ⟨-, hc⟩
      exact (pyContains_iff_mem_keys _ _).mp hc
    · intro hm
      exact ⟨hkeymem a hm, (pyContains_iff_mem_keys _ _).mpr hm⟩
  have hperm2 : (CHARACTER_ORDER.filter
      (fun p => (pyValues s.token_assignments).contains p)).Perm
        (pyValues s.token_assignments) := by
    apply (List.perm_ext_iff_of_nodup (List.Nodup.filter _ (by decide)) hvd).mpr
    intro a
    rw [List.mem_filter]
    constructor
    · rintro ⟨-, hc⟩
      simpa using hc
    · intro hm
      refine ⟨hvalmem a, by simpa using hm⟩
  have hsplit1 := @List.length_eq_length_filter_add Nat ([3, 4, 2, 1] : List Nat)
    (fun t => pyContains s.token_assignments t)
  have hsplit2 := @List.length_eq_length_filter_add Character CHARACTER_ORDER
    (fun p => (pyValues s.token_assignments).contains p)
  have hlen : (([3, 4, 2, 1] : List Nat).filter
        (fun t => decide (¬ pyContains s.token_assignments t = true))).length
      = (CHARACTER_ORDER.filter
        (fun p => decide (¬ (pyValues s.token_assignments).contains p = true))).length := by
    rw [hfe1, hfe2]
    have hv : (pyValues s.token_assignments).length
        = (s.token_assignments.map Prod.fst).length := by
      simp [pyValues]
    have h1 := hperm1.length_eq
    have h2 := hperm2.length_eq
    have hco : CHARACTER_ORDER.length = 4 := by decide
    have hto : ([3, 4, 2, 1] : List Nat).length = 4 := by decide
    omega
  have hndrt : (([3, 4, 2, 1] : List Nat).filter
      (fun t => decide (¬ pyContains s.token_assignments t = true))).Nodup :=
    List.Nodup.filter _ (by decide)
  have hndrp : (CHARACTER_ORDER.filter
      (fun p => decide (¬ (pyValues s.token_assignments).contains p = true))).Nodup :=
    List.Nodup.filter _ (by decide)
  have htoks : ∀ t ∈ ([3, 4, 2, 1] : List Nat).filter
      (fun t => decide (¬ pyContains s.token_assignments t = true)),
      (t = 1 ∨ t = 2 ∨ t = 3 ∨ t = 4) ∧ pyGet s.token_assignments t = none := by
    intro t ht
    obtain ⟨hmem, hdec⟩ := List.mem_filter.mp ht
    have hfalse : pyContains s.token_assignments t = false := by
      simpa using hdec
    refine ⟨?_, (pyContains_eq_false_iff _ _).mp hfalse⟩
    simp at hmem
    tauto
  have hpls : ∀ p ∈ CHARACTER_ORDER.filter
      (fun p => decide (¬ (pyValues s.token_assignments).contains p = true)),
      (pyValues s.token_assignments).contains p = false := by
    intro p hp
    obtain ⟨-, hdec⟩ := List.mem_filter.mp hp
    simpa using hdec
  have h3 : ([3, 4, 2, 1] : List Nat).filter
        (fun t => decide (¬ pyContains s.token_assignments t = true)) ≠ [] →
      pyGet s.token_assignments 3 ≠ none
        ∨ (([3, 4, 2, 1] : List Nat).filter
            (fun t => decide (¬ pyContains s.token_assignments t = true))).head? = some 3 := by
    intro _
    by_cases hc3 : pyContains s.token_assignments 3 = true
    · exact Or.inl ((pyContains_eq_true_iff _ _).mp hc3)
    · right
      have hf3 : (fun t => decide (¬ pyContains s.token_assignments t = true)) 3 = true := by
        simpa using hc3
      rw [show ([3, 4, 2, 1] : List Nat) = 3 :: [4, 2, 1] from rfl, List.filter_cons,
        if_pos hf3]
      rfl
  obtain ⟨hl1, hl2⟩ := frtsLoop_spec _ _ s [] hphase hlen hndrt hndrp htoks hpls h3
  constructor
  · unfold force_remaining_tokens_seeded
    dsimp only
    rw [hl1]
    simp
  · intro t ht
    unfold force_remaining_tokens_seeded
    dsimp only
    rw [pyContains_eq_true_iff]
    apply hl2
    by_cases hg : pyGet s.token_assignments t = none
    · right
      rw [List.mem_filter]
      refine ⟨?_, by simp [(pyContains_eq_false_iff _ _).mpr hg]⟩
      simp at ht ⊢
      tauto
    · exact Or.inl hg

/-- The state after `start_round` on a fresh engine (concrete decks, identity
shuffles): a reachable NEGOTIATION state with no token claimed. -/
def c9Round1 : GState :=
  match start_round EFFECT_CARDS (init_state 10 PROPOSAL_CARDS EFFECT_CARDS) with
  | some s => s
  | none => init_state 10 PROPOSAL_CARDS EFFECT_CARDS

theorem c9Round1_reach : Reach c9Round1 :=
  Reach.step _ _
    (Reach.init 10 PROPOSAL_CARDS EFFECT_CARDS (List.Perm.refl _) (List.Perm.refl _))
    (EngineStep.startRound EFFECT_CARDS _ _ (List.Perm.refl _) rfl)

/-- Witness for C9 at the concrete reachable negotiation state. -/
theorem c9_force_remaining_tokens_seeded_witness :
    c9Round1.phase = Phase.negotiation
      ∧ ((force_remaining_tokens_seeded c9Round1).1
          = (((([3, 4, 2, 1] : List Nat).filter
                (fun t => ¬ pyContains c9Round1.token_assignments t)).zip
              (CHARACTER_ORDER.filter
                (fun p => ¬ (pyValues c9Round1.token_assignments).contains p))).map
            (fun e => (e.2, e.1)))
        ∧ ∀ t ∈ ([1, 2, 3, 4] : List Nat),
            pyContains ((force_remaining_tokens_seeded c9Round1).2).token_assignments t
              = true) :=
  ⟨rfl, c9_force_remaining_tokens_seeded c9Round1 c9Round1_reach rfl⟩

/-! ## C2: the freshness rule is not enforced by the code -/

/-- Mid-voting ledger: Quincy holds 1 Medici-owned token, Medici holds 2 of
their own (3 were spent earlier via the three-token mechanism), Carmichael
holds the other 2 Medici-owned units.  Every column still sums to 5. -/
def c2Holdings : Character → Character → Int := fun h o =>
  match h, o with
  | Character.carmichael, Character.carmichael => 5
  | Character.carmichael, Character.medici => 2
  | Character.quincy, Character.quincy => 5
  | Character.quincy, Character.medici => 1
  | Character.medici, Character.medici => 2
  | Character.dambrosio, Character.dambrosio => 5
  | _, _ => 0

/-- A voting-phase state in which all four players have voted and no vote has
been changed yet this round. -/
def c2State : GState :=
  { init_state 10 PROPOSAL_CARDS EFFECT_CARDS with
      phase := Phase.voting
      token_assignments := [(1, Character.quincy), (2, Character.medici),
        (3, Character.carmichael), (4, Character.dambrosio)]
      votes := [(Character.quincy, 0), (Character.medici, 1),
        (Character.carmichael, 1), (Character.dambrosio, 0)]
      holdings := c2Holdings }

/-- C2 failing run: Quincy spends a Medici-owned token to flip Medici's vote
(the spent unit lands in Medici's own cell, raising it from 2 to 3); Medici's
immediate attempt to spend three own-owned tokens — including the unit just
received — through `force_vote_change_with_three_tokens` succeeds in the code,
although the spec's freshness rule says it must fail: the engine checks only
the raw ownership ledger and never reads or writes the `spendable_holdings`
sub-ledger declared in `models.py`. -/
theorem c2_freshness_not_enforced :
    (change_vote_using_target_token c2State Character.quincy Character.medici 0).1 = true
      ∧ c2State.holdings Character.medici Character.medici = 2
      ∧ ((change_vote_using_target_token c2State Character.quincy Character.medici 0).2).holdings
          Character.medici Character.medici = 3
      ∧ (force_vote_change_with_three_tokens
          (change_vote_using_target_token c2State Character.quincy Character.medici 0).2
          Character.medici Character.carmichael 0).1 = true := by
  refine ⟨by decide, by decide, by decide, by decide⟩

/-! ## C7: referee ruling interpretation (`orchestrator.py`) -/

/-- Python `str.splitlines()` (over `\n`, `\r\n` and `\r`). -/
def pySplitlinesAux : List Char → List Char → List String
  | [], cur => if cur.isEmpty then [] else [String.mk cur.reverse]
  | '\r' :: '\n' :: rest, cur => String.mk cur.reverse :: pySplitlinesAux rest []
  | '\n' :: rest, cur => String.mk cur.reverse :: pySplitlinesAux rest []
  | '\r' :: rest, cur => String.mk cur.reverse :: pySplitlinesAux rest []
  | c :: rest, cur => pySplitlinesAux rest (c :: cur)

def pySplitlines (s : String) : List String :=
  pySplitlinesAux s.data []

/-- Python `s[:n]`. -/
def pyTruncate (s : String) (n : Nat) : String :=
  String.mk (s.data.take n)

/-- Python `text.replace("\x60", "")`: drop every backtick. -/
def removeBackticks (s : String) : String :=
  String.mk (s.data.filter (fun c => ¬ c = '\x60'))

/-- Python `s.startswith(pat)`. -/
def strStartsWith (s pat : String) : Bool :=
  pat.data.isPrefixOf s.data

/-- `_clean_ruling_text`: collapse whitespace, remove backticks, truncate to
277 characters plus an ellipsis beyond 280. -/
def clean_ruling_text (text : String) : String :=
  let normalized := pyStrip (joinWords (pyWords (removeBackticks text)))
  if normalized.length ≤ 280 then normalized
  else pyTruncate normalized 277 ++ "..."

/-- `_strip_code_fence`. -/
def strip_code_fence (text : String) : String :=
  let stripped := pyStrip text
  if ¬ strStartsWith stripped "\x60\x60\x60" then stripped
  else
    let lines0 := pySplitlines stripped
    let lines1 :=
      if lines0 ≠ [] ∧ strStartsWith (lines0.headD "") "\x60\x60\x60" then lines0.drop 1
      else lines0
    let lines2 :=
      if lines1 ≠ [] ∧ pyStrip (lines1.getLastD "") = "\x60\x60\x60" then lines1.dropLast
      else lines1
    pyStrip (String.intercalate "\n" lines2)

/-- `_extract_human_ruling_lines`, parameterised by the structured extractor
`tryRulings` (the composition of `try_extract_json_object` with the
`rulings`-list lookup of the source): `tryRulings u = none` models "`u` is not
JSON-shaped (or has no `rulings` list)". -/
def extract_human_ruling_lines (tryRulings : String → Option (List String))
    (text : String) : List String :=
  let cleaned := pyStrip text
  if cleaned = "" then []
  else
    match tryRulings cleaned with
    | some raw => (raw.filter (fun item => pyStrip item ≠ "")).map clean_ruling_text
    | none =>
      let de_fenced := strip_code_fence cleaned
      match tryRulings de_fenced with
      | some raw => (raw.filter (fun item => pyStrip item ≠ "")).map clean_ruling_text
      | none =>
        if de_fenced.data.contains '\n' then
          let parts := ((pySplitlines de_fenced).filter
            (fun part => pyStrip part ≠ "")).map clean_ruling_text
          if parts ≠ [] then parts.take 8 else [clean_ruling_text de_fenced]
        else [clean_ruling_text de_fenced]

/-- Modelled from the spec (claim side of the refinement for C7): split the
non-JSON response on newlines, strip a leading bullet or number marker from
each line, keep each non-empty line as one ruling capped at 500 characters. -/
def strip_bullet_marker (s : String) : String :=
  let t := pyStrip s
  let cs := t.data
  let cs' :=
    if cs.headD ' ' = '-' ∨ cs.headD ' ' = '*' ∨ cs.headD ' ' = '•' then cs.drop 1
    else
      let digits := cs.takeWhile Char.isDigit
      let rest := cs.dropWhile Char.isDigit
      if ¬ digits.isEmpty ∧ (rest.headD ' ' = '.' ∨ rest.headD ' ' = ')') then rest.drop 1
      else cs
  String.mk (cs'.dropWhile pyIsSpace)

/-- Modelled from the spec: the claimed behaviour of the non-JSON branch. -/
def extract_ruling_lines_spec (text : String) : List String :=
  ((pySplitlines (pyStrip text)).filter (fun l => pyStrip l ≠ "")).map
    (fun l => pyTruncate (strip_bullet_marker l) 500)

set_option maxRecDepth 8000 in
/-- C7 counterexample: on a plain (non-JSON) bulleted two-line response the
code keeps the leading "- " markers (the claim says they are stripped), and a
300-character line is truncated to 280 characters (the claim says the cap is
500).  The code's output therefore differs from the claimed one. -/
theorem c7_claim_counterexample :
    extract_human_ruling_lines (fun _ => none) "- keep the tie\n- drop the rest"
        = ["- keep the tie", "- drop the rest"]
      ∧ extract_ruling_lines_spec "- keep the tie\n- drop the rest"
        = ["keep the tie", "drop the rest"]
      ∧ ((extract_human_ruling_lines (fun _ => none)
          (String.mk (List.replicate 300 'a') ++ "\nx")).headD "").length = 280
      ∧ ((extract_ruling_lines_spec
          (String.mk (List.replicate 300 'a') ++ "\nx")).headD "").length = 300
      ∧ extract_human_ruling_lines (fun _ => none) "- keep the tie\n- drop the rest"
          ≠ extract_ruling_lines_spec "- keep the tie\n- drop the rest" := by
  refine ⟨by decide, by decide, by decide, by decide, by decide⟩

theorem clean_ruling_text_length (t : String) : (clean_ruling_text t).length ≤ 280 := by
  unfold clean_ruling_text
  dsimp only
  split
  · assumption
  · rename_i hlen
    push_neg at hlen
    have h1 : (pyTruncate (pyStrip (joinWords (pyWords (removeBackticks t)))) 277).length
        = 277 := by
      unfold pyTruncate
      show (String.mk _).length = 277
      simp only [String.length_mk, List.length_take]
      have : 280 < (pyStrip (joinWords (pyWords (removeBackticks t)))).length := hlen
      rw [String.length] at this
      omega
    rw [String.length_append, h1]
    decide

/-- C7 amended: when neither the stripped response nor its de-fenced form is
JSON-shaped and the de-fenced text spans several lines with at least one
non-blank one, the interpreter splits it on newlines and turns each non-empty
line into one ruling, whitespace-normalised with backticks removed — leading
bullet/number markers are NOT stripped — capped at 280 characters (277 plus an
ellipsis), keeping at most the first 8 rulings. -/
theorem c7_ruling_lines_amended (tryRulings : String → Option (List String))
    (text : String)
    (h1 : tryRulings (pyStrip text) = none)
    (h2 : tryRulings (strip_code_fence (pyStrip text)) = none)
    (h3 : (strip_code_fence (pyStrip text)).data.contains '\n' = true)
    (h4 : ((pySplitlines (strip_code_fence (pyStrip text))).filter
        (fun part => pyStrip part ≠ "")).map clean_ruling_text ≠ []) :
    extract_human_ruling_lines tryRulings text
        = (((pySplitlines (strip_code_fence (pyStrip text))).filter
            (fun part => pyStrip part ≠ "")).map clean_ruling_text).take 8
      ∧ ∀ r ∈ extract_human_ruling_lines tryRulings text, r.length ≤ 280 := by
  have hc : pyStrip text ≠ "" := by
    intro hc0
    rw [hc0] at h3
    exact absurd h3 (by decide)
  have heq : extract_human_ruling_lines tryRulings text
      = (((pySplitlines (strip_code_fence (pyStrip text))).filter
          (fun part => pyStrip part ≠ "")).map clean_ruling_text).take 8 := by
    unfold extract_human_ruling_lines
    dsimp only
    rw [if_neg hc, h1]
    dsimp only
    rw [h2]
    try dsimp only
    rw [if_pos h3]
    try dsimp only
    rw [if_pos h4]
  refine ⟨heq, ?_⟩
  rw [heq]
  intro r hr
  have hr' := List.take_subset 8 _ hr
  obtain ⟨x, -, hx⟩ := List.mem_map.mp hr'
  rw [← hx]
  exact clean_ruling_text_length x

/-- Witness for the amended C7 on a concrete bulleted response. -/
theorem c7_ruling_lines_amended_witness :
    ((fun _ : String => (none : Option (List String)))
        (pyStrip "- first vote line\n- second vote line") = none)
      ∧ (extract_human_ruling_lines (fun _ => none) "- first vote line\n- second vote line"
          = (((pySplitlines (strip_code_fence
                (pyStrip "- first vote line\n- second vote line"))).filter
              (fun part => pyStrip part ≠ "")).map clean_ruling_text).take 8
        ∧ ∀ r ∈ extract_human_ruling_lines (fun _ => none)
            "- first vote line\n- second vote line", r.length ≤ 280) :=
  ⟨rfl, c7_ruling_lines_amended (fun _ => none) "- first vote line\n- second vote line"
    rfl rfl (by decide) (by decide)⟩

/-! ## C8: contract inference (`orchestrator.py`), and the SHA-1 it hashes with -/

def rotl (n x : Nat) : Nat :=
  ((x <<< n) ||| (x >>> (32 - n))) % 4294967296

/-- UTF-8 encoding of one code point, as byte values. -/
def utf8EncodeCharNat (c : Char) : List Nat :=
  let n := c.toNat
  if n < 128 then [n]
  else if n < 2048 then [192 + n / 64, 128 + n % 64]
  else if n < 65536 then [224 + n / 4096, 128 + (n / 64) % 64, 128 + n % 64]
  else [240 + n / 262144, 128 + (n / 4096) % 64, 128 + (n / 64) % 64, 128 + n % 64]

def utf8Bytes (s : String) : List Nat :=
  s.data.foldr (fun c acc => utf8EncodeCharNat c ++ acc) []

def sha1Pad (msg : List Nat) : List Nat :=
  let len := msg.length
  let bitlen := len * 8
  let k := (120 - (len + 1) % 64) % 64
  msg ++ [128] ++ List.replicate k 0
    ++ [(bitlen >>> 56) % 256, (bitlen >>> 48) % 256, (bitlen >>> 40) % 256,
        (bitlen >>> 32) % 256, (bitlen >>> 24) % 256, (bitlen >>> 16) % 256,
        (bitlen >>> 8) % 256, bitlen % 256]

def bytesToWords : List Nat → List Nat
  | b0 :: b1 :: b2 :: b3 :: rest =>
    (((b0 * 256 + b1) * 256 + b2) * 256 + b3) :: bytesToWords rest
  | _ => []

def wordAt (w : List Nat) (i : Nat) : Nat := w.getD i 0

def sha1ExtendLoop : Nat → List Nat → List Nat
  | 0, w => w
  | n + 1, w =>
    let i := w.length
    let x := rotl 1 ((wordAt w (i - 3)) ^^^ (wordAt w (i - 8))
      ^^^ (wordAt w (i - 14)) ^^^ (wordAt w (i - 16)))
    sha1ExtendLoop n (w ++ [x])

structure Sha1State where
  a : Nat
  b : Nat
  c : Nat
  d : Nat
  e : Nat

def sha1Round (st : Sha1State) (i : Nat) (wi : Nat) : Sha1State :=
  let fk : Nat × Nat :=
    if i < 20 then ((st.b &&& st.c) ||| ((st.b ^^^ 4294967295) &&& st.d), 1518500249)
    else if i < 40 then (st.b ^^^ st.c ^^^ st.d, 1859775393)
    else if i < 60 then ((st.b &&& st.c) ||| (st.b &&& st.d) ||| (st.c &&& st.d), 2400959708)
    else (st.b ^^^ st.c ^^^ st.d, 3395469782)
  let temp := (rotl 5 st.a + fk.1 + st.e + fk.2 + wi) % 4294967296
  ⟨temp, st.a, rotl 30 st.b, st.c, st.d⟩

def sha1Chunk (st : Sha1State) (chunk : List Nat) : Sha1State :=
  let w := sha1ExtendLoop 64 (bytesToWords chunk)
  let f := (List.range 80).foldl (fun q i => sha1Round q i (wordAt w i)) st
  ⟨(st.a + f.a) % 4294967296, (st.b + f.b) % 4294967296, (st.c + f.c) % 4294967296,
   (st.d + f.d) % 4294967296, (st.e + f.e) % 4294967296⟩

def chunks64Aux : Nat → List Nat → List (List Nat)
  | 0, _ => []
  | n + 1, l => if l.isEmpty then [] else l.take 64 :: chunks64Aux n (l.drop 64)

def hexDigit (n : Nat) : Char :=
  if n < 10 then Char.ofNat (48 + n) else Char.ofNat (87 + n)

def hexWord (x : Nat) : List Char :=
  [hexDigit ((x >>> 28) % 16), hexDigit ((x >>> 24) % 16), hexDigit ((x >>> 20) % 16),
   hexDigit ((x >>> 16) % 16), hexDigit ((x >>> 12) % 16), hexDigit ((x >>> 8) % 16),
   hexDigit ((x >>> 4) % 16), hexDigit (x % 16)]

/-- `hashlib.sha1(msg).hexdigest()`. -/
def sha1Hexdigest (msg : List Nat) : String :=
  let padded := sha1Pad msg
  let chunks := chunks64Aux (padded.length + 1) padded
  let st := chunks.foldl sha1Chunk ⟨1732584193, 4023233417, 2562383102, 271733878, 3285377520⟩
  String.mk (hexWord st.a ++ hexWord st.b ++ hexWord st.c ++ hexWord st.d ++ hexWord st.e)

/-! ### The commitment parser (`_inferred_contract_from_line` and helpers) -/

def pyLower (s : String) : String :=
  String.mk (s.data.map Char.toLower)

/-- Contiguous-sublist test (substring search on char lists). -/
def listInfix {α : Type} [DecidableEq α] : List α → List α → Bool
  | needle, [] => needle.isEmpty
  | needle, x :: t => needle.isPrefixOf (x :: t) || listInfix needle t

/-- Python `needle in hay`. -/
def strContains (hay needle : String) : Bool :=
  listInfix needle.data hay.data

/-- The four character values sorted by their string value (code-point order:
"Carmichael" < "D\x27Ambrosio" < "Medici" < "Quincy"), the order produced by
Python `sorted` over the party set. -/
def charSortedByValue : List Character :=
  [Character.carmichael, Character.dambrosio, Character.medici, Character.quincy]

/-- The alias table of `_characters_mentioned`. -/
def characterAliases : Character → List String
  | Character.carmichael => ["carmichael"]
  | Character.quincy => ["quincy"]
  | Character.medici => ["medici"]
  | Character.dambrosio => ["d\x27ambrosio", "dambrosio"]

/-- `_characters_mentioned` as a membership test. -/
def characterMentioned (text : String) (c : Character) : Bool :=
  (characterAliases c).any (fun a => strContains (pyLower text) a)

def lowerChars (l : List Char) : List Char := l.map Char.toLower

/-- Case-insensitive literal prefix (the pattern is given lowercase). -/
def ciPrefixL (pat : String) (cs : List Char) : Option (List Char) :=
  if lowerChars (cs.take pat.length) = pat.data then some (cs.drop pat.length) else none

def dropSpacesL (cs : List Char) : List Char := cs.dropWhile pyIsSpace

/-- Regex `\s+`: at least one whitespace character, consumed greedily. -/
def spaces1 (cs : List Char) : Option (List Char) :=
  if pyIsSpace (cs.headD 'x') then some (dropSpacesL cs) else none

/-- Regex `(?:\d+[.)]\s*)?` at the start of the line.  (If the numeric prefix
is present but the following name fails to match, the regex backtracks to the
empty alternative and then fails on the digit, so matching after the prefix is
equivalent.) -/
def dropNumPrefix (cs : List Char) : List Char :=
  let digits := cs.takeWhile Char.isDigit
  let rest := cs.dropWhile Char.isDigit
  if ¬ digits.isEmpty ∧ (rest.headD ' ' = '.' ∨ rest.headD ' ' = ')') then
    dropSpacesL (rest.drop 1)
  else cs

/-- Regex `(Carmichael|Quincy|Medici|D'Ambrosio)`, case-insensitive, in the
source's alternation order. -/
def matchName (cs : List Char) : Option (Character × List Char) :=
  match ciPrefixL "carmichael" cs with
  | some r => some (Character.carmichael, r)
  | none =>
    match ciPrefixL "quincy" cs with
    | some r => some (Character.quincy, r)
    | none =>
      match ciPrefixL "medici" cs with
      | some r => some (Character.medici, r)
      | none =>
        match ciPrefixL "d\x27ambrosio" cs with
        | some r => some (Character.dambrosio, r)
        | none => none

/-- One optional word followed by `\s+` (regex `(?:word\s+)?`). -/
def optWord (w : String) (cs : List Char) : List Char :=
  match ciPrefixL w cs with
  | some r =>
    match spaces1 r with
    | some r2 => r2
    | none => cs
  | none => cs

/-- Regex `\s*(?:to:?\s*|committed to\s+)(.+)$`, returning the clause.  The
input is already whitespace-normalised (single spaces, no boundary space), on
which this deterministic parse coincides with the regex's backtracking. -/
def finalAlt (cs : List Char) : Option (List Char) :=
  let cs0 := dropSpacesL cs
  let branch1 : Option (List Char) :=
    match ciPrefixL "to" cs0 with
    | some r =>
      let r1 := if r.headD ' ' = ':' then r.drop 1 else r
      let r2 := dropSpacesL r1
      if r2.isEmpty then none else some r2
    | none => none
  match branch1 with
  | some r => some r
  | none =>
    match ciPrefixL "committed to" cs0 with
    | some r =>
      match spaces1 r with
      | some r2 => if r2.isEmpty then none else some r2
      | none => none
    | none => none

/-- The whole commitment regex of `_inferred_contract_from_line`, with the
backtracking of the `(?:commitment|commitments)?` group made explicit. -/
def parseCommitmentClause (cleaned : String) : Option (Character × List Char) :=
  let cs := dropNumPrefix cleaned.data
  match matchName cs with
  | none => none
  | some (actor, r) =>
    match spaces1 r with
    | none => none
    | some r1 =>
      let r2 := optWord "made" r1
      let r3 := optWord "a" r2
      let r4 := optWord "binding" r3
      let clause :=
        match ciPrefixL "commitment" r4 with
        | some q =>
          match finalAlt q with
          | some cl => some cl
          | none =>
            match ciPrefixL "commitments" r4 with
            | some q2 =>
              match finalAlt q2 with
              | some cl => some cl
              | none => finalAlt r4
            | none => finalAlt r4
        | none => finalAlt r4
      match clause with
      | none => none
      | some cl => some (actor, cl)

/-- Python `clause.strip(" .")`. -/
def stripDotSpace (s : String) : String :=
  let p : Char → Bool := fun c => c = ' ' || c = '.'
  String.mk (((s.data.dropWhile p).reverse.dropWhile p).reverse)

def commitKeywords : List String := ["vote", "support", "proposal", "round", "season"]

/-- The stable contract identifier: `"inferred_"` plus the first 10 hex
characters of the SHA-1 of the lowercased normalized text joined with the
sorted party values. -/
def contractIdOf (t : String) (ps : List Character) : String :=
  "inferred_" ++ pyTruncate (sha1Hexdigest (utf8Bytes
    (pyLower t ++ "|" ++ String.intercalate "|" (ps.map Character.value)))) 10

/-- The round-independent core of `_inferred_contract_from_line`: the contract
identifier, normalized commitment text, and sorted party list (everything but
`created_round`). -/
def inferredCore (line : String) : Option (String × String × List Character) :=
  let cleaned := joinWords (pyWords (pyStrip line))
  if cleaned = "" then none
  else if ¬ strContains (pyLower cleaned) "committed to" then none
  else
    match parseCommitmentClause cleaned with
    | none => none
    | some (actor, clauseChars) =>
      let clause := stripDotSpace (String.mk clauseChars)
      if clause.length < 18 then none
      else if ¬ commitKeywords.any (fun w => strContains (pyLower clause) w) then none
      else
        let parties := charSortedByValue.filter
          (fun c => decide (c = actor) || characterMentioned clause c)
        if parties.length < 2 then none
        else
          let normalized_text := actor.value ++ " committed to " ++ clause
          some (contractIdOf normalized_text parties, normalized_text, parties)

/-- `_inferred_contract_from_line`. -/
def inferred_contract_from_line (roundN : Nat) (line : String) : Option Contract :=
  (inferredCore line).map (fun r =>
    { contract_id := r.1
      text := r.2.1
      parties := r.2.2
      created_round := roundN
      status := ContractStatus.active
      notes := "Inferred from referee ruling text" })

/-- One iteration of the `_infer_contracts_from_rulings` loop: add the
inferred contract unless its identifier is already present. -/
def inferStep (roundN : Nat) (acc : List (String × Contract)) (line : String) :
    List (String × Contract) :=
  match inferred_contract_from_line roundN line with
  | none => acc
  | some c => if pyContains acc c.contract_id then acc else pySet acc c.contract_id c

/-- `_infer_contracts_from_rulings`. -/
def infer_contracts_from_rulings (contracts : List (String × Contract)) (roundN : Nat)
    (rulings : List String) : List (String × Contract) :=
  rulings.foldl (inferStep roundN) contracts

/-! ### Lemmas about the inference fold -/

theorem pyContains_pySet {α β : Type} [DecidableEq α] (d : List (α × β)) (k : α) (v : β)
    (k' : α) (h : pyContains d k' = true) : pyContains (pySet d k v) k' = true := by
  by_cases he : k' = k
  · subst he
    unfold pyContains
    rw [pyGet_pySet_self]
    rfl
  · unfold pyContains at *
    rw [pyGet_pySet_ne _ _ _ _ he]
    exact h

theorem pyContains_pySet_self {α β : Type} [DecidableEq α] (d : List (α × β)) (k : α)
    (v : β) : pyContains (pySet d k v) k = true := by
  unfold pyContains
  rw [pyGet_pySet_self]
  rfl

/-- The contract identifier produced by `inferredCore` is the stable hash of
the normalized text and sorted party list it returns. -/
theorem inferredCore_id (line : String) (id t : String) (ps : List Character)
    (h : inferredCore line = some (id, t, ps)) : id = contractIdOf t ps := by
  unfold inferredCore at h
  dsimp only at h
  repeat' split at h
  all_goals try exact Option.noConfusion h
  simp only [Option.some.injEq, Prod.mk.injEq] at h
  obtain ⟨h1, h2, h3⟩ := h
  rw [← h1, ← h2, ← h3]

/-- Everything in an inferred contract except `created_round` comes from the
round-independent core. -/
theorem inferred_eq_core (r : Nat) (line : String) (c : Contract)
    (h : inferred_contract_from_line r line = some c) :
    inferredCore line = some (c.contract_id, c.text, c.parties) := by
  unfold inferred_contract_from_line at h
  cases hc : inferredCore line with
  | none =>
    rw [hc] at h
    exact Option.noConfusion h
  | some v =>
    rw [hc] at h
    injection h with h2
    rw [← h2]

theorem infer_cons (acc : List (String × Contract)) (r : Nat) (line : String)
    (ls : List String) :
    infer_contracts_from_rulings acc r (line :: ls)
      = infer_contracts_from_rulings (inferStep r acc line) r ls := rfl

theorem inferStep_mono (r : Nat) (acc : List (String × Contract)) (line : String)
    (id : String) (h : pyContains acc id = true) :
    pyContains (inferStep r acc line) id = true := by
  unfold inferStep
  split
  · exact h
  · split
    · exact h
    · exact pyContains_pySet _ _ _ _ h

theorem infer_mono (rulings : List String) :
    ∀ (acc : List (String × Contract)) (r : Nat) (id : String),
      pyContains acc id = true →
      pyContains (infer_contracts_from_rulings acc r rulings) id = true := by
  induction rulings with
  | nil => intro acc r id h; exact h
  | cons line ls ih =>
    intro acc r id h
    rw [infer_cons]
    exact ih _ r id (inferStep_mono r acc line id h)

/-- After a run of inference, every line of the input that infers a contract
has that contract's identifier present in the result. -/
theorem infer_line_present (rulings : List String) :
    ∀ (acc : List (String × Contract)) (r : Nat) (line : String) (c : Contract),
      line ∈ rulings →
      inferred_contract_from_line r line = some c →
      pyContains (infer_contracts_from_rulings acc r rulings) c.contract_id = true := by
  induction rulings with
  | nil => intro acc r line c hmem; simp at hmem
  | cons l ls ih =>
    intro acc r line c hmem hinf
    rw [infer_cons]
    rcases List.mem_cons.mp hmem with he | ht
    · subst he
      apply infer_mono
      unfold inferStep
      rw [hinf]
      split
      · rename_i heq
        exact Option.noConfusion heq
      · rename_i c2 heq
        injection heq with he2
        subst he2
        split
        · assumption
        · exact pyContains_pySet_self _ _ _
    · exact ih _ r line c ht hinf

/-- A run of inference over lines whose inferred identifiers are all already
present is the identity. -/
theorem infer_noop (rulings : List String) :
    ∀ (acc : List (String × Contract)) (r : Nat),
      (∀ line ∈ rulings, ∀ c : Contract, inferred_contract_from_line r line = some c →
        pyContains acc c.contract_id = true) →
      infer_contracts_from_rulings acc r rulings = acc := by
  induction rulings with
  | nil => intro acc r _; rfl
  | cons l ls ih =>
    intro acc r h
    rw [infer_cons]
    have hstep : inferStep r acc l = acc := by
      unfold inferStep
      split
      · rfl
      · rename_i c hc
        rw [if_pos (h l (by simp) c hc)]
    rw [hstep]
    exact ih acc r (fun line hl => h line (by simp [hl]))

/-- Entries not present before a run and present after it carry the canonical
hash identifier of their own text and party list. -/
def CanonIds (base acc : List (String × Contract)) : Prop :=
  ∀ (id : String) (c : Contract), pyGet acc id = some c → pyGet base id = none →
    id = contractIdOf c.text c.parties

theorem inferred_canon (r : Nat) (line : String) (c : Contract)
    (h : inferred_contract_from_line r line = some c) :
    c.contract_id = contractIdOf c.text c.parties :=
  inferredCore_id line c.contract_id c.text c.parties (inferred_eq_core r line c h)

theorem inferStep_canon (r : Nat) (base acc : List (String × Contract)) (line : String)
    (h : CanonIds base acc) : CanonIds base (inferStep r acc line) := by
  unfold inferStep
  split
  · exact h
  · rename_i c hc
    split
    · exact h
    · intro id c' hget hbase
      by_cases he : id = c.contract_id
      · subst he
        rw [pyGet_pySet_self] at hget
        injection hget with h2
        rw [← h2]
        exact inferred_canon r line c hc
      · rw [pyGet_pySet_ne _ _ _ _ he] at hget
        exact h id c' hget hbase

theorem infer_canon (rulings : List String) :
    ∀ (base acc : List (String × Contract)) (r : Nat),
      CanonIds base acc → CanonIds base (infer_contracts_from_rulings acc r rulings) := by
  induction rulings with
  | nil => intro base acc r h; exact h
  | cons l ls ih =>
    intro base acc r h
    rw [infer_cons]
    exact ih base _ r (inferStep_canon r base acc l h)

/-- C8: contract inference is idempotent — a second run over the same ruling
lines adds nothing (every inferred identifier, a stable hash of the normalized
commitment text plus the sorted party names, is already present and skipped),
and among the contracts a run adds there are never two distinct entries with
the same normalized text and party set. -/
theorem c8_contract_inference_idempotent (contracts : List (String × Contract))
    (r1 r2 : Nat) (rulings : List String) :
    infer_contracts_from_rulings (infer_contracts_from_rulings contracts r1 rulings)
        r2 rulings
      = infer_contracts_from_rulings contracts r1 rulings
    ∧ ∀ (id id' : String) (c c' : Contract),
        pyGet (infer_contracts_from_rulings contracts r1 rulings) id = some c →
        pyGet contracts id = none →
        pyGet (infer_contracts_from_rulings contracts r1 rulings) id' = some c' →
        pyGet contracts id' = none →
        c.text = c'.text → c.parties = c'.parties → id = id' := by
  constructor
  · apply infer_noop
    intro line hl c hinf
    have hcore : inferredCore line = some (c.contract_id, c.text, c.parties) :=
      inferred_eq_core r2 line c hinf
    have hinf1 : inferred_contract_from_line r1 line
        = some { contract_id := c.contract_id, text := c.text, parties := c.parties,
                 created_round := r1, status := ContractStatus.active,
                 notes := "Inferred from referee ruling text" } := by
      unfold inferred_contract_from_line
      rw [hcore]
      rfl
    have := infer_line_present rulings contracts r1 line _ hl hinf1
    exact this
  · intro id id' c c' hg hb hg' hb' htext hparties
    have hcanon := infer_canon rulings contracts contracts r1
      (fun i x h1 h2 => by rw [h1] at h2; exact Option.noConfusion h2)
    have e1 := hcanon id c hg hb
    have e2 := hcanon id' c' hg' hb'
    rw [e1, e2, htext, hparties]

def c8Line : String := "Quincy committed to support Medici in round 2"

/-- The contract the code infers from `c8Line` in round 1 (identifier checked
against `hashlib.sha1`). -/
def c8Contract : Contract :=
  { contract_id := "inferred_eeb437f3aa"
    text := "Quincy committed to support Medici in round 2"
    parties := [Character.medici, Character.quincy]
    created_round := 1
    status := ContractStatus.active
    notes := "Inferred from referee ruling text" }

set_option maxRecDepth 10000 in
/-- Witness for C8 on a concrete ruling line: the second run over the same
line is the identity, and the single added contract sits at its stable hash
identifier. -/
theorem c8_contract_inference_idempotent_witness :
    infer_contracts_from_rulings (infer_contracts_from_rulings [] 1 [c8Line]) 2 [c8Line]
        = infer_contracts_from_rulings [] 1 [c8Line]
      ∧ pyGet (infer_contracts_from_rulings [] 1 [c8Line]) "inferred_eeb437f3aa"
          = some c8Contract
      ∧ ("inferred_eeb437f3aa" : String) = "inferred_eeb437f3aa" := by
  have hget : pyGet (infer_contracts_from_rulings [] 1 [c8Line]) "inferred_eeb437f3aa"
      = some c8Contract := by decide
  have hbase : pyGet ([] : List (String × Contract)) "inferred_eeb437f3aa" = none := rfl
  refine ⟨(c8_contract_inference_idempotent [] 1 2 [c8Line]).1, hget, ?_⟩
  exact (c8_contract_inference_idempotent [] 1 2 [c8Line]).2 _ _ _ _ hget hbase hget hbase
    rfl rfl

end RatScramble
